import Mathlib

/-!
Verification of the spotify-dl repository's core subsystems against its
specification. Each section embeds one part of the JavaScript source as
executable Lean definitions and proves (or refutes) the specified
properties about them:

* `src/lib/downloader.js` — sponsor-segment interval merging
  (`sponsorComplexFilter`) and the multi-candidate download loop
  (`downloader`);
* `src/util/get-link.js` — YouTube search filtering (`findLinks`) and
  tiered fallback search (`getLinks`);
* the authenticated API wrapper (`callSpotifyApi`);
* the template renderer (`generateTemplateString`);
* the dedup cache (`writeId` / `findId`);
* the batch orchestrator (`downloadList`) and report (`generateReport`);
* the metadata tagger (`mergeMetadata`).

External collaborators (the YouTube search provider, the SponsorBlock
segment provider, ffmpeg, the filesystem, the Spotify client) are
modelled as explicit oracle parameters; machine control flow (loops,
try/catch) is translated to structural recursion and `Except`.
-/

namespace SpotifyDl

/-! ## Character-list string primitives

JavaScript string operations used by the source, modelled on `List Char`
so that everything reduces in the kernel. -/

/-- Whitespace test covering the characters JavaScript's `\s` / `trim`
handle for the ASCII inputs relevant here. -/
def isWS (c : Char) : Bool :=
  c = ' ' || c = '\t' || c = '\n' || c = '\r'

/-- JavaScript `String.prototype.trim`: strip whitespace from both ends. -/
def trimL (cs : List Char) : List Char :=
  ((cs.dropWhile isWS).reverse.dropWhile isWS).reverse

/-- JavaScript `String.prototype.split('\n')`. -/
def splitNL : List Char → List (List Char)
  | [] => [[]]
  | c :: rest =>
    match splitNL rest with
    | [] => [[c]]
    | h :: t => if c = '\n' then [] :: h :: t else (c :: h) :: t

/-- JavaScript `String.prototype.replace(pattern, repl)` with a string
pattern: replace the first occurrence only. -/
def replaceFirstL (pattern repl : List Char) : List Char → List Char
  | [] => []
  | c :: rest =>
    if pattern.isPrefixOf (c :: rest) then repl ++ (c :: rest).drop pattern.length
    else c :: replaceFirstL pattern repl rest

/-- JavaScript `String.prototype.includes`: substring test. -/
def isInfixL (sub : List Char) : List Char → Bool
  | [] => sub.isEmpty
  | c :: rest => sub.isPrefixOf (c :: rest) || isInfixL sub rest

/-- JavaScript `String.prototype.toLowerCase` for the ASCII range. -/
def lowerL (cs : List Char) : List Char :=
  cs.map Char.toLower

/-! ## Interval merger (`sponsorComplexFilter`, src/lib/downloader.js 58–68)

A SponsorBlock segment with a start and end instant in seconds.
Times are modelled as rationals (JavaScript numbers). -/

structure Segment where
  startTime : ℚ
  endTime : ℚ
deriving DecidableEq

/-- The comparator-driven sort
`segments.sort((a, b) => a.startTime - b.startTime)`. -/
def sortSegments (l : List Segment) : List Segment :=
  l.mergeSort (fun a b => decide (a.startTime ≤ b.startTime))

/-- One step of the `reduce` in `sponsorComplexFilter`: if the last
accepted interval strictly overlaps the current one
(`previousSegment.endTime > startTime`), extend its end to
`Math.max(endTime, previousSegment.endTime)`; otherwise push the current
interval. -/
def mergeStep (acc : List Segment) (cur : Segment) : List Segment :=
  match acc.getLast? with
  | some previousSegment =>
    if previousSegment.endTime > cur.startTime then
      acc.dropLast ++ [⟨previousSegment.startTime, max cur.endTime previousSegment.endTime⟩]
    else acc ++ [cur]
  | none => acc ++ [cur]

/-- The interval merger of `sponsorComplexFilter`: sort by `startTime`,
then fold `mergeStep` over the sorted list. -/
def mergeSegments (l : List Segment) : List Segment :=
  (sortSegments l).foldl mergeStep []

/-- Recursive form of the merging fold: `prev` is the last accepted
interval, emitted when the next interval does not strictly overlap it. -/
def mergeAux (prev : Segment) : List Segment → List Segment
  | [] => [prev]
  | cur :: rest =>
    if prev.endTime > cur.startTime then
      mergeAux ⟨prev.startTime, max cur.endTime prev.endTime⟩ rest
    else prev :: mergeAux cur rest

/-- The set of time points a segment covers (half-open interval). -/
def Segment.points (s : Segment) : Set ℚ :=
  {x | s.startTime ≤ x ∧ x < s.endTime}

/-- The set of time points a list of segments covers. -/
def unionPoints (l : List Segment) : Set ℚ :=
  {x | ∃ s ∈ l, x ∈ s.points}

theorem unionPoints_nil : unionPoints [] = ∅ := by
  simp [unionPoints]

theorem unionPoints_cons (s : Segment) (l : List Segment) :
    unionPoints (s :: l) = s.points ∪ unionPoints l := by
  ext x
  simp [unionPoints, Set.mem_union]

theorem unionPoints_perm {l l' : List Segment} (h : l.Perm l') :
    unionPoints l = unionPoints l' := by
  ext x
  simp only [unionPoints, Set.mem_setOf_eq]
  exact ⟨fun ⟨s, hs, hx⟩ => ⟨s, h.mem_iff.mp hs, hx⟩,
         fun ⟨s, hs, hx⟩ => ⟨s, h.mem_iff.mpr hs, hx⟩⟩

/-- The fold over `mergeStep` agrees with the recursive `mergeAux`. -/
theorem foldl_mergeStep_eq (xs : List Segment) :
    ∀ (A : List Segment) (p : Segment),
      xs.foldl mergeStep (A ++ [p]) = A ++ mergeAux p xs := by
  induction xs with
  | nil => intro A p; simp [mergeAux]
  | cons c rest ih =>
    intro A p
    simp only [List.foldl_cons, mergeStep, List.getLast?_concat, List.dropLast_concat]
    by_cases h : p.endTime > c.startTime
    · simp only [if_pos h, mergeAux, ih]
    · simp only [if_neg h, mergeAux]
      rw [List.append_assoc A [p] [c]]
      rw [show [p] ++ [c] = [p] ++ [c] from rfl]
      rw [← List.append_assoc A [p] [c], ih (A ++ [p]) c, List.append_assoc]
      rfl

theorem mergeSegments_eq (l : List Segment) :
    mergeSegments l =
      match sortSegments l with
      | [] => []
      | h :: t => mergeAux h t := by
  unfold mergeSegments
  cases hs : sortSegments l with
  | nil => rfl
  | cons h t =>
    show (h :: t).foldl mergeStep [] = mergeAux h t
    have h0 : mergeStep [] h = [] ++ [h] := by simp [mergeStep]
    simp only [List.foldl_cons, h0]
    exact foldl_mergeStep_eq t [] h

/-- Being sorted by start time, as produced by `sortSegments`. -/
def StartLE (a b : Segment) : Prop := a.startTime ≤ b.startTime

theorem sortSegments_perm (l : List Segment) : (sortSegments l).Perm l :=
  List.mergeSort_perm l _

theorem sortSegments_sorted (l : List Segment) :
    List.Pairwise StartLE (sortSegments l) := by
  have h := @List.sorted_mergeSort Segment
    (fun a b : Segment => decide (a.startTime ≤ b.startTime))
    (fun a b c h₁ h₂ => by
      simp only [decide_eq_true_eq] at *
      exact le_trans h₁ h₂)
    (fun a b => by
      simp only [Bool.or_eq_true, decide_eq_true_eq]
      exact le_total a.startTime b.startTime)
    l
  refine h.imp ?_
  intro a b hab
  simpa [StartLE] using hab

theorem mergeAux_start_le (xs : List Segment) :
    ∀ (p : Segment), List.Pairwise StartLE (p :: xs) →
      ∀ q ∈ mergeAux p xs, p.startTime ≤ q.startTime := by
  induction xs with
  | nil =>
    intro p _ q hq
    simp only [mergeAux, List.mem_singleton] at hq
    exact hq ▸ le_refl _
  | cons c rest ih =>
    intro p hp q hq
    rw [List.pairwise_cons] at hp
    obtain ⟨hpc, hcrest⟩ := hp
    by_cases h : p.endTime > c.startTime
    · simp only [mergeAux, if_pos h] at hq
      have hpair : List.Pairwise StartLE
          (⟨p.startTime, max c.endTime p.endTime⟩ :: rest) := by
        rw [List.pairwise_cons]
        refine ⟨?_, (List.pairwise_cons.mp hcrest).2⟩
        intro a ha
        exact le_trans (hpc c (List.mem_cons_self c rest))
          ((List.pairwise_cons.mp hcrest).1 a ha)
      exact ih _ hpair q hq
    · simp only [mergeAux, if_neg h, List.mem_cons] at hq
      rcases hq with rfl | hq
      · exact le_refl _
      · exact le_trans (hpc c (List.mem_cons_self c rest))
          (ih c hcrest q hq)

theorem mergeAux_nonoverlap (xs : List Segment) :
    ∀ (p : Segment), List.Pairwise StartLE (p :: xs) →
      List.Pairwise (fun a b => a.endTime ≤ b.startTime) (mergeAux p xs) := by
  induction xs with
  | nil => intro p _; simp [mergeAux]
  | cons c rest ih =>
    intro p hp
    rw [List.pairwise_cons] at hp
    obtain ⟨hpc, hcrest⟩ := hp
    by_cases h : p.endTime > c.startTime
    · simp only [mergeAux, if_pos h]
      have hpair : List.Pairwise StartLE
          (⟨p.startTime, max c.endTime p.endTime⟩ :: rest) := by
        rw [List.pairwise_cons]
        refine ⟨?_, (List.pairwise_cons.mp hcrest).2⟩
        intro a ha
        exact le_trans (hpc c (List.mem_cons_self c rest))
          ((List.pairwise_cons.mp hcrest).1 a ha)
      exact ih _ hpair
    · simp only [mergeAux, if_neg h]
      rw [List.pairwise_cons]
      push_neg at h
      refine ⟨?_, ih c hcrest⟩
      intro q hq
      exact le_trans h (mergeAux_start_le rest c hcrest q hq)

theorem mergeAux_wf (xs : List Segment) :
    ∀ (p : Segment), p.startTime < p.endTime →
      (∀ s ∈ xs, s.startTime < s.endTime) →
      ∀ q ∈ mergeAux p xs, q.startTime < q.endTime := by
  induction xs with
  | nil =>
    intro p hp _ q hq
    simp only [mergeAux, List.mem_singleton] at hq
    exact hq ▸ hp
  | cons c rest ih =>
    intro p hp hxs q hq
    by_cases h : p.endTime > c.startTime
    · simp only [mergeAux, if_pos h] at hq
      refine ih _ ?_ (fun s hs => hxs s (List.mem_cons_of_mem c hs)) q hq
      exact lt_of_lt_of_le hp (le_max_right _ _)
    · simp only [mergeAux, if_neg h, List.mem_cons] at hq
      rcases hq with rfl | hq
      · exact hp
      · exact ih c (hxs c (List.mem_cons_self c rest))
          (fun s hs => hxs s (List.mem_cons_of_mem c hs)) q hq

theorem points_merge (p c : Segment) (hstart : p.startTime ≤ c.startTime)
    (hover : c.startTime < p.endTime) :
    Segment.points ⟨p.startTime, max c.endTime p.endTime⟩ =
      p.points ∪ c.points := by
  ext x
  simp only [Segment.points, Set.mem_union, Set.mem_setOf_eq]
  constructor
  · rintro ⟨hx1, hx2⟩
    by_cases hxp : x < p.endTime
    · exact Or.inl ⟨hx1, hxp⟩
    · push_neg at hxp
      rcases max_cases c.endTime p.endTime with ⟨hm, _⟩ | ⟨hm, hle⟩
      · exact Or.inr ⟨le_trans (le_of_lt hover) hxp, hm ▸ hx2⟩
      · exact absurd (lt_of_lt_of_le (hm ▸ hx2) hxp) (lt_irrefl x)
  · rintro (⟨hx1, hx2⟩ | ⟨hx1, hx2⟩)
    · exact ⟨hx1, lt_of_lt_of_le hx2 (le_max_right _ _)⟩
    · exact ⟨le_trans hstart hx1, lt_of_lt_of_le hx2 (le_max_left _ _)⟩

theorem mergeAux_unionPoints (xs : List Segment) :
    ∀ (p : Segment), List.Pairwise StartLE (p :: xs) →
      unionPoints (mergeAux p xs) = p.points ∪ unionPoints xs := by
  induction xs with
  | nil => intro p _; simp [mergeAux, unionPoints_cons, unionPoints_nil]
  | cons c rest ih =>
    intro p hp
    rw [List.pairwise_cons] at hp
    obtain ⟨hpc, hcrest⟩ := hp
    by_cases h : p.endTime > c.startTime
    · simp only [mergeAux, if_pos h]
      have hpair : List.Pairwise StartLE
          (⟨p.startTime, max c.endTime p.endTime⟩ :: rest) := by
        rw [List.pairwise_cons]
        refine ⟨?_, (List.pairwise_cons.mp hcrest).2⟩
        intro a ha
        exact le_trans (hpc c (List.mem_cons_self c rest))
          ((List.pairwise_cons.mp hcrest).1 a ha)
      rw [ih _ hpair, points_merge p c (hpc c (List.mem_cons_self c rest)) h,
        unionPoints_cons, Set.union_assoc]
    · simp only [mergeAux, if_neg h]
      rw [unionPoints_cons, ih c hcrest, unionPoints_cons]

/-- C1 (amended): for every finite list of skip intervals with
`start < end`, the interval merger — sort by start, then one pass that
extends the last accepted interval's end to `max(current.end,
previous.end)` whenever `current.start < previous.end` (strict overlap
only) — produces a list that is sorted ascending by `start` (strictly),
pairwise non-overlapping in the sense `previous.end ≤ next.start`
(adjacent touching intervals are NOT coalesced and may remain), keeps
every interval well-formed, and whose union as a set of points equals
the union of the input intervals. -/
theorem mergeSegments_spec (l : List Segment)
    (hwf : ∀ s ∈ l, s.startTime < s.endTime) :
    List.Pairwise (fun a b => a.startTime < b.startTime) (mergeSegments l) ∧
    List.Pairwise (fun a b => a.endTime ≤ b.startTime) (mergeSegments l) ∧
    (∀ s ∈ mergeSegments l, s.startTime < s.endTime) ∧
    unionPoints (mergeSegments l) = unionPoints l := by
  have hperm := sortSegments_perm l
  have hsorted := sortSegments_sorted l
  have hwf' : ∀ s ∈ sortSegments l, s.startTime < s.endTime :=
    fun s hs => hwf s (hperm.mem_iff.mp hs)
  rw [mergeSegments_eq]
  cases hs : sortSegments l with
  | nil =>
    have hl : l = [] := List.Perm.eq_nil (hs ▸ hperm).symm
    subst hl
    simp [unionPoints_nil]
  | cons h t =>
    rw [hs] at hsorted hwf'
    have hno := mergeAux_nonoverlap t h hsorted
    have hwfout := mergeAux_wf t h
      (hwf' h (List.mem_cons_self h t))
      (fun s hsm => hwf' s (List.mem_cons_of_mem h hsm))
    have hstrict : List.Pairwise (fun a b => a.startTime < b.startTime)
        (mergeAux h t) := by
      refine hno.imp_of_mem ?_
      intro a b ha _ hab
      exact lt_of_lt_of_le (hwfout a ha) hab
    refine ⟨hstrict, hno, hwfout, ?_⟩
    rw [mergeAux_unionPoints t h hsorted, ← unionPoints_cons, ← hs]
    exact unionPoints_perm (sortSegments_perm l)

/-- Witness for C1 at the spec's own example
`[(10,20),(15,25),(40,50)]`. -/
theorem mergeSegments_spec_witness :
    (∀ s ∈ [Segment.mk 10 20, ⟨15, 25⟩, ⟨40, 50⟩], s.startTime < s.endTime) ∧
    (List.Pairwise (fun a b => a.startTime < b.startTime)
        (mergeSegments [⟨10, 20⟩, ⟨15, 25⟩, ⟨40, 50⟩]) ∧
      List.Pairwise (fun a b => a.endTime ≤ b.startTime)
        (mergeSegments [⟨10, 20⟩, ⟨15, 25⟩, ⟨40, 50⟩]) ∧
      (∀ s ∈ mergeSegments [⟨10, 20⟩, ⟨15, 25⟩, ⟨40, 50⟩],
        s.startTime < s.endTime) ∧
      unionPoints (mergeSegments [⟨10, 20⟩, ⟨15, 25⟩, ⟨40, 50⟩]) =
        unionPoints [⟨10, 20⟩, ⟨15, 25⟩, ⟨40, 50⟩]) :=
  ⟨by decide, mergeSegments_spec _ (by decide)⟩

/-- C1 counterexample to the claim as stated: on the touching intervals
`[(10,20),(20,30)]` the code's merge condition
`previousSegment.endTime > startTime` is false (20 > 20 fails), so the
two adjacent intervals are NOT coalesced: the output contains two
intervals where one's end equals the other's start, contradicting the
claimed non-adjacency. -/
theorem mergeSegments_adjacent_counterexample :
    mergeSegments [⟨10, 20⟩, ⟨20, 30⟩] = [⟨10, 20⟩, ⟨20, 30⟩] ∧
    ¬ (∀ a ∈ mergeSegments [Segment.mk 10 20, ⟨20, 30⟩],
        ∀ b ∈ mergeSegments [Segment.mk 10 20, ⟨20, 30⟩],
          a.endTime ≠ b.startTime) := by
  have hs : sortSegments [Segment.mk 10 20, ⟨20, 30⟩] =
      [⟨10, 20⟩, ⟨20, 30⟩] := by
    apply List.mergeSort_of_sorted
    decide
  have hm : mergeSegments [Segment.mk 10 20, ⟨20, 30⟩] =
      [⟨10, 20⟩, ⟨20, 30⟩] := by
    rw [mergeSegments_eq, hs]
    show mergeAux ⟨10, 20⟩ [⟨20, 30⟩] = _
    simp only [mergeAux]
    norm_num
  refine ⟨hm, ?_⟩
  intro hcl
  have := hcl ⟨10, 20⟩ (by rw [hm]; exact List.mem_cons_self _ _)
    ⟨20, 30⟩ (by rw [hm]; exact List.mem_cons_of_mem _ (List.mem_cons_self _ _))
  exact this rfl

/-! ## Acquisition engine (`downloader`, src/lib/downloader.js 151–209)

The external collaborators are oracle parameters: `parseVideoID` models
`new URLSearchParams(new URL(link).search).get('v')`, `getSegments`
models the SponsorBlock client call (`.error` = the call threw), and
`transcode` models the ytdl + ffmpeg pipeline for one candidate given
the suppression plan (`none` = no complex filter applied). -/

structure DlEnv (α : Type) where
  parseVideoID : α → Option String
  getSegments : String → Except Unit (List Segment)
  transcode : α → Option (List Segment) → Except String Unit

/-- `sponsorComplexFilter`: the suppression plan for one candidate.
Returns `none` (no suppression) when the link has no video id, when the
segment provider throws, or when the merged segment list is empty. -/
def sponsorComplexFilter {α : Type} (env : DlEnv α) (link : α) :
    Option (List Segment) :=
  match env.parseVideoID link with
  | none => none
  | some videoID =>
    match env.getSegments videoID with
    | .error _ => none
    | .ok raw =>
      let segments := mergeSegments raw
      if segments = [] then none else some segments

/-- Outcome of one candidate: the `try { await new Promise(doDownload) }`
body, which transcodes the stream with the candidate's suppression plan. -/
def candidateSucceeds {α : Type} (env : DlEnv α) (link : α) : Bool :=
  match env.transcode link (sponsorComplexFilter env link) with
  | .ok _ => true
  | .error _ => false

/-- The `while (attemptCount < youtubeLinks.length && !downloadSuccess)`
loop: returns the candidates attempted, in order, and the final success
flag. A candidate error advances to the next candidate. -/
def downloaderLoop {α : Type} (env : DlEnv α) : List α → List α × Bool
  | [] => ([], false)
  | link :: rest =>
    if candidateSucceeds env link then ([link], true)
    else
      let r := downloaderLoop env rest
      (link :: r.1, r.2)

/-- `downloader`: empty candidate list (`youtubeLinks.length === 0`)
returns `false` immediately; otherwise the fallback loop runs. Never
throws (total, returns `Bool`). -/
def downloader {α : Type} (env : DlEnv α) (youtubeLinks : List α) : Bool :=
  match youtubeLinks with
  | [] => false
  | _ :: _ => (downloaderLoop env youtubeLinks).2

theorem downloaderLoop_success (env : DlEnv α) (links : List α) :
    (downloaderLoop env links).2 = links.any (candidateSucceeds env) := by
  induction links with
  | nil => rfl
  | cons link rest ih =>
    by_cases h : candidateSucceeds env link
    · simp [downloaderLoop, h]
    · simp [downloaderLoop, h, ih]

theorem downloaderLoop_attempted (env : DlEnv α) (links : List α) :
    (downloaderLoop env links).1 =
      links.take (links.findIdx (candidateSucceeds env) + 1) := by
  induction links with
  | nil => rfl
  | cons link rest ih =>
    by_cases h : candidateSucceeds env link
    · simp [downloaderLoop, h, List.findIdx_cons]
    · simp [downloaderLoop, h, List.findIdx_cons, ih]

/-- C2: the acquisition call tries candidates strictly in list order and
stops at the first success (the attempted prefix is
`take (firstSuccessIndex + 1)`); it succeeds iff some candidate's
transcode succeeds, so a transcoding error on one candidate advances to
the next; a segment-provider error, a missing video id, or an empty
merged segment list yields no suppression (`none`), and such a
candidate's outcome is exactly the outcome of transcoding unmodified;
only after every candidate has failed is `false` returned, with every
candidate having been attempted, and the call returns a plain boolean
(never an exception). -/
theorem downloader_spec {α : Type} (env : DlEnv α) (links : List α) :
    (downloader env links = links.any (candidateSucceeds env)) ∧
    ((downloaderLoop env links).1 =
      links.take (links.findIdx (candidateSucceeds env) + 1)) ∧
    (∀ link videoID, env.parseVideoID link = some videoID →
      (∀ e, env.getSegments videoID = Except.error e →
        sponsorComplexFilter env link = none) ∧
      (∀ raw, env.getSegments videoID = Except.ok raw →
        mergeSegments raw = [] → sponsorComplexFilter env link = none)) ∧
    (∀ link, env.parseVideoID link = none →
      sponsorComplexFilter env link = none) ∧
    (∀ link, sponsorComplexFilter env link = none →
      candidateSucceeds env link =
        match env.transcode link none with
        | Except.ok _ => true
        | Except.error _ => false) ∧
    ((∀ l ∈ links, candidateSucceeds env l = false) →
      downloader env links = false ∧ (downloaderLoop env links).1 = links) := by
  refine ⟨?_, downloaderLoop_attempted env links, ?_, ?_, ?_, ?_⟩
  · cases links with
    | nil => rfl
    | cons a rest => exact downloaderLoop_success env (a :: rest)
  · intro link videoID hparse
    constructor
    · intro e hseg
      simp [sponsorComplexFilter, hparse, hseg]
    · intro raw hseg hmerge
      simp [sponsorComplexFilter, hparse, hseg, hmerge]
  · intro link hparse
    simp [sponsorComplexFilter, hparse]
  · intro link hfilter
    simp [candidateSucceeds, hfilter]
  · intro hall
    have h2 : downloader env links = false := by
      cases links with
      | nil => rfl
      | cons a rest =>
        show (downloaderLoop env (a :: rest)).2 = false
        rw [downloaderLoop_success]
        simp only [List.any_eq_false]
        intro l hl
        simpa using hall l hl
    refine ⟨h2, ?_⟩
    rw [downloaderLoop_attempted]
    have : links.findIdx (candidateSucceeds env) = links.length := by
      rw [List.findIdx_eq_length]
      intro l hl
      simpa using hall l hl
    rw [this]
    exact List.take_of_length_le (Nat.le_succ_of_le (le_refl _))

/-- Concrete environment for the C2 witness: no video ids are parsed
(so every suppression plan is `none`), candidate `3` transcodes
successfully, all others fail. -/
def dlTestEnv : DlEnv Nat :=
  ⟨fun _ => none, fun _ => Except.error (),
    fun l _ => if l = 3 then Except.ok () else Except.error "fail"⟩

/-- Witness for C2: the first two candidates fail, the third succeeds;
the call returns `true` having attempted exactly `[1, 2, 3]`, and on the
all-failing list `[1, 2]` it returns `false` after attempting both. -/
theorem downloader_spec_witness :
    (downloader dlTestEnv [1, 2, 3] = [1, 2, 3].any (candidateSucceeds dlTestEnv) ∧
      downloader dlTestEnv [1, 2, 3] = true) ∧
    ((downloaderLoop dlTestEnv [1, 2, 3]).1 = [1, 2, 3]) ∧
    (sponsorComplexFilter dlTestEnv 1 = none) ∧
    (candidateSucceeds dlTestEnv 1 =
      match dlTestEnv.transcode 1 none with
      | Except.ok _ => true
      | Except.error _ => false) ∧
    ((∀ l ∈ [1, 2], candidateSucceeds dlTestEnv l = false) ∧
      downloader dlTestEnv [1, 2] = false ∧
      (downloaderLoop dlTestEnv [1, 2]).1 = [1, 2]) := by
  have h3 := downloader_spec dlTestEnv [1, 2, 3]
  have h2 := downloader_spec dlTestEnv [1, 2]
  refine ⟨⟨h3.1, by decide⟩, ?_, ?_, ?_, ?_⟩
  · rw [h3.2.1]; decide
  · exact (h3.2.2.2.1 1 rfl)
  · exact h3.2.2.2.2.1 1 (h3.2.2.2.1 1 rfl)
  · refine ⟨by decide, h2.2.2.2.2.2 (by decide)⟩

/-! ## Credentialed API gate (`callSpotifyApi`, src auth module 238–263)

The underlying API call is an oracle `attempt : Nat → Except String β`
giving the outcome of the numbered attempt (`tries` runs 1, 2, …).
The execution trace records credential verifications, calls, and sleeps
(`TIMEOUT_RETRY` seconds each) in order. -/

inductive GateEvent
  | verify
  | call (tries : Nat)
  | wait (seconds : Nat)
deriving DecidableEq

/-- The `while (tries <= maxRetries)` loop of `callSpotifyApi`:
`remaining` is `maxRetries - tries + 1`, `lastError` the message of the
most recent failure. Each iteration verifies credentials, makes the
call, and on error sleeps `TIMEOUT_RETRY` seconds when further attempts
remain. Exhaustion throws
`Spotify API failed after ${maxRetries} retries: ${lastError.message}`. -/
def callAux {β : Type} (attempt : Nat → Except String β)
    (timeoutRetry maxRetries : Nat) (tries remaining : Nat)
    (lastError : String) : List GateEvent × Except String β :=
  if remaining = 0 then
    ([], Except.error ("Spotify API failed after " ++ toString maxRetries ++
      " retries: " ++ lastError))
  else
    match attempt tries with
    | Except.ok v => ([GateEvent.verify, GateEvent.call tries], Except.ok v)
    | Except.error e =>
      let ws : List GateEvent :=
        if tries < maxRetries then [GateEvent.wait timeoutRetry] else []
      let r := callAux attempt timeoutRetry maxRetries (tries + 1)
        (remaining - 1) e
      (GateEvent.verify :: GateEvent.call tries :: ws ++ r.1, r.2)
termination_by remaining
decreasing_by omega

/-- `callSpotifyApi`: `maxRetries = 5`, `tries` starts at 1. -/
def callSpotifyApi {β : Type} (attempt : Nat → Except String β)
    (timeoutRetry : Nat) : List GateEvent × Except String β :=
  callAux attempt timeoutRetry 5 1 5 ""

theorem callAux_wait_flat {β : Type} (attempt : Nat → Except String β)
    (timeoutRetry maxRetries : Nat) :
    ∀ remaining tries lastError s,
      GateEvent.wait s ∈
        (callAux attempt timeoutRetry maxRetries tries remaining lastError).1 →
      s = timeoutRetry := by
  intro remaining
  induction remaining with
  | zero => intro tries lastError s h; rw [callAux] at h; simp at h
  | succ r ih =>
    intro tries lastError s h
    rw [callAux] at h
    cases hat : attempt tries with
    | ok v => simp only [hat, if_neg (Nat.succ_ne_zero r)] at h; simp at h
    | error e =>
      simp only [hat, if_neg (Nat.succ_ne_zero r), Nat.add_sub_cancel] at h
      rcases List.mem_cons.mp h with h | h
      · exact absurd h (by simp)
      rcases List.mem_cons.mp h with h | h
      · exact absurd h (by simp)
      rcases List.mem_append.mp h with h | h
      · by_cases hlt : tries < maxRetries
        · simp only [if_pos hlt, List.mem_singleton] at h
          injection h
        · simp only [if_neg hlt] at h
          exact absurd h (List.not_mem_nil _)
      · exact ih (tries + 1) e s h

/-- C3: credentials are verified before every attempt; on error the call
is retried up to 5 attempts total with the same flat wait between
attempts; failing attempts 1–4 and succeeding on attempt 5 yields the
success value after exactly 4 waits (trace: verify, call, wait ×4, then
verify, call); failing all 5 yields a terminal error whose message
carries the attempt bound (5) and the last error's message; and every
wait in any trace equals the one configured interval. -/
theorem callSpotifyApi_spec {β : Type} (attempt : Nat → Except String β)
    (T : Nat) :
    (∀ v e₁ e₂ e₃ e₄,
      attempt 1 = Except.error e₁ → attempt 2 = Except.error e₂ →
      attempt 3 = Except.error e₃ → attempt 4 = Except.error e₄ →
      attempt 5 = Except.ok v →
      callSpotifyApi attempt T =
        ([GateEvent.verify, GateEvent.call 1, GateEvent.wait T,
          GateEvent.verify, GateEvent.call 2, GateEvent.wait T,
          GateEvent.verify, GateEvent.call 3, GateEvent.wait T,
          GateEvent.verify, GateEvent.call 4, GateEvent.wait T,
          GateEvent.verify, GateEvent.call 5], Except.ok v)) ∧
    (∀ e₁ e₂ e₃ e₄ e₅,
      attempt 1 = Except.error e₁ → attempt 2 = Except.error e₂ →
      attempt 3 = Except.error e₃ → attempt 4 = Except.error e₄ →
      attempt 5 = Except.error e₅ →
      callSpotifyApi attempt T =
        ([GateEvent.verify, GateEvent.call 1, GateEvent.wait T,
          GateEvent.verify, GateEvent.call 2, GateEvent.wait T,
          GateEvent.verify, GateEvent.call 3, GateEvent.wait T,
          GateEvent.verify, GateEvent.call 4, GateEvent.wait T,
          GateEvent.verify, GateEvent.call 5],
          Except.error ("Spotify API failed after 5 retries: " ++ e₅))) ∧
    (∀ s, GateEvent.wait s ∈ (callSpotifyApi attempt T).1 → s = T) := by
  refine ⟨?_, ?_, ?_⟩
  · intro v e₁ e₂ e₃ e₄ h₁ h₂ h₃ h₄ h₅
    unfold callSpotifyApi
    rw [callAux]; simp only [h₁]; norm_num
    rw [callAux]; simp only [h₂]; norm_num
    rw [callAux]; simp only [h₃]; norm_num
    rw [callAux]; simp only [h₄]; norm_num
    rw [callAux]; simp only [h₅]; norm_num
  · intro e₁ e₂ e₃ e₄ e₅ h₁ h₂ h₃ h₄ h₅
    unfold callSpotifyApi
    rw [callAux]; simp only [h₁]; norm_num
    rw [callAux]; simp only [h₂]; norm_num
    rw [callAux]; simp only [h₃]; norm_num
    rw [callAux]; simp only [h₄]; norm_num
    rw [callAux]; simp only [h₅]; norm_num
    rw [callAux]; norm_num
    exact congrArg (fun z => z ++ e₅) (by rfl)
  · exact fun s h => callAux_wait_flat attempt T 5 5 1 "" s h

/-- Concrete attempt oracle for the C3 witness: attempts 1–4 fail,
attempt 5 succeeds with value 42. -/
def gateTestAttempt : Nat → Except String Nat :=
  fun n => if n = 5 then Except.ok 42 else Except.error "rate limited"

/-- Second oracle for the C3 witness: every attempt fails. -/
def gateTestAttemptFail : Nat → Except String Nat :=
  fun _ => Except.error "boom"

/-- Witness for C3 at `TIMEOUT_RETRY = 7`: four failures then a success
returns `ok 42` after exactly 4 waits of 7 seconds; five failures raise
the terminal message naming 5 attempts and the final error. -/
theorem callSpotifyApi_spec_witness :
    callSpotifyApi gateTestAttempt 7 =
      ([GateEvent.verify, GateEvent.call 1, GateEvent.wait 7,
        GateEvent.verify, GateEvent.call 2, GateEvent.wait 7,
        GateEvent.verify, GateEvent.call 3, GateEvent.wait 7,
        GateEvent.verify, GateEvent.call 4, GateEvent.wait 7,
        GateEvent.verify, GateEvent.call 5], Except.ok 42) ∧
    callSpotifyApi gateTestAttemptFail 7 =
      ([GateEvent.verify, GateEvent.call 1, GateEvent.wait 7,
        GateEvent.verify, GateEvent.call 2, GateEvent.wait 7,
        GateEvent.verify, GateEvent.call 3, GateEvent.wait 7,
        GateEvent.verify, GateEvent.call 4, GateEvent.wait 7,
        GateEvent.verify, GateEvent.call 5],
        Except.error "Spotify API failed after 5 retries: boom") :=
  ⟨(callSpotifyApi_spec gateTestAttempt 7).1 42 "rate limited" "rate limited"
      "rate limited" "rate limited" rfl rfl rfl rfl rfl,
    (callSpotifyApi_spec gateTestAttemptFail 7).2.1 "boom" "boom" "boom" "boom"
      "boom" rfl rfl rfl rfl rfl⟩

/-! ## Template renderer (`generateTemplateString`, src format module 15–52)

`format.match(/(?<=\x7b).+?(?=\x7d)/g)` — every shortest non-empty run
of non-newline characters that is immediately preceded by `{` and
immediately followed by `}` — is modelled by a left-to-right scan.
The scanner state is `none` (not inside a candidate match) or
`some accR` (the candidate's content so far, reversed); a terminator
`}` is a zero-width lookahead, so after emitting a match whose last
content character is `{` the terminator itself starts the next
candidate. -/

def matchScan : Option (List Char) → List Char → List (List Char)
  | _, [] => []
  | none, c :: rest =>
    if c = '\x7b' then matchScan (some []) rest else matchScan none rest
  | some accR, c :: rest =>
    if c = '\n' ∨ c = '\r' then matchScan none rest
    else if c = '\x7d' then
      match accR with
      | [] => matchScan (some ['\x7d']) rest
      | last :: _ =>
        accR.reverse ::
          (if last = '\x7b' then matchScan (some ['\x7d']) rest
           else matchScan none rest)
    else matchScan (some (c :: accR)) rest

/-- The placeholder names the regex extracts from a format string. -/
def matchContexts (cs : List Char) : List (List Char) :=
  matchScan none cs

/-- Modelled from the spec: `YOUTUBE_SEARCH.VALID_CONTEXTS` lives in
`util/constants.js`, which is not included under `src/`; the spec fixes
the placeholder set to exactly `itemName`, `albumName`, `artistName`. -/
def VALID_CONTEXTS : List String := ["itemName", "albumName", "artistName"]

/-- JavaScript `Array.prototype.join(', ')`. -/
def joinComma : List String → String
  | [] => ""
  | [x] => x
  | x :: y :: rest => x ++ ", " ++ joinComma (y :: rest)

/-- The `contextMap` lookup of `generateTemplateString`. -/
def contextValue (itemName albumName artistName context : String) : String :=
  if context = "itemName" then itemName
  else if context = "albumName" then albumName
  else if context = "artistName" then artistName
  else ""

/-- JavaScript `result.replace('\x7b' + context + '\x7d', value)`
(first occurrence only). -/
def replaceFirstS (s pattern repl : String) : String :=
  String.mk (replaceFirstL pattern.toList repl.toList s.toList)

/-- The placeholder names of a format string, as strings. -/
def templateContexts (format : String) : List String :=
  (matchContexts format.toList).map String.mk

/-- The placeholders of `format` outside the fixed valid set. -/
def invalidTemplateContexts (format : String) : List String :=
  (templateContexts format).filter (fun c => ¬ VALID_CONTEXTS.contains c)

/-- The message of the error thrown on invalid placeholders. -/
def templateErrorMsg (format : String) : String :=
  "Invalid template contexts: " ++ joinComma (invalidTemplateContexts format) ++
    ". Valid contexts are: " ++ joinComma VALID_CONTEXTS

/-- `generateTemplateString`: empty format renders empty; a format with
no placeholders renders unchanged; any placeholder outside
`VALID_CONTEXTS` throws an error naming all invalid placeholders;
otherwise each placeholder is replaced (first occurrence per extracted
context, in order) by the corresponding value. -/
def generateTemplateString (itemName albumName artistName format : String) :
    Except String String :=
  if format = "" then Except.ok ""
  else
    let contexts := templateContexts format
    if contexts = [] then Except.ok format
    else
      let invalidContexts := invalidTemplateContexts format
      if invalidContexts ≠ [] then Except.error (templateErrorMsg format)
      else
        Except.ok (contexts.foldl (fun result context =>
          replaceFirstS result ("\x7b" ++ context ++ "\x7d")
            (contextValue itemName albumName artistName context)) format)

deriving instance DecidableEq for Except

theorem isInfixL_iff (sub : List Char) :
    ∀ big, isInfixL sub big = true ↔ sub <:+: big := by
  intro big
  induction big with
  | nil =>
    simp only [isInfixL, List.isEmpty_iff]
    constructor
    · intro h; subst h; exact List.infix_rfl
    · intro h; exact List.eq_nil_of_infix_nil h
  | cons c rest ih =>
    simp only [isInfixL, Bool.or_eq_true, List.isPrefixOf_iff_prefix, ih,
      List.infix_cons_iff]

theorem mem_infix_joinComma (x : String) :
    ∀ l : List String, x ∈ l → x.toList <:+: (joinComma l).toList := by
  intro l
  induction l with
  | nil => intro h; cases h
  | cons y rest ih =>
    intro hmem
    cases rest with
    | nil =>
      have hx : x = y := List.mem_singleton.mp hmem
      subst hx
      exact List.infix_rfl
    | cons z rest2 =>
      rcases List.mem_cons.mp hmem with rfl | h
      · show x.toList <:+: (x ++ ", " ++ joinComma (z :: rest2)).toList
        exact ⟨[], (", " ++ joinComma (z :: rest2)).toList, by simp⟩
      · have h2 := ih h
        show x.toList <:+: (y ++ ", " ++ joinComma (z :: rest2)).toList
        obtain ⟨pre, post, hpp⟩ := h2
        refine ⟨(y ++ ", ").toList ++ pre, post, ?_⟩
        show ((y ++ ", ").toList ++ pre) ++ x.toList ++ post = _
        have hl : (y ++ ", " ++ joinComma (z :: rest2)).toList =
            (y ++ ", ").toList ++ (joinComma (z :: rest2)).toList := by
          simp
        rw [hl, ← hpp]
        simp [List.append_assoc]

/-- C8: template rendering raises an error naming every placeholder of
the format string outside the fixed set itemName/albumName/artistName —
whenever at least one invalid placeholder exists the result is the
error whose message contains each invalid placeholder as a substring,
so unknown placeholders are never silently dropped; when every
placeholder is from the fixed set, rendering succeeds, and in
particular the format `"{itemName} - {albumName}"` with item `"A"` and
album `"B"` renders `"A - B"`. -/
theorem generateTemplateString_spec
    (itemName albumName artistName format : String) :
    (invalidTemplateContexts format ≠ [] →
      generateTemplateString itemName albumName artistName format =
        Except.error (templateErrorMsg format) ∧
      ∀ c ∈ invalidTemplateContexts format,
        c.toList <:+: (templateErrorMsg format).toList) ∧
    (invalidTemplateContexts format = [] →
      ∃ s, generateTemplateString itemName albumName artistName format =
        Except.ok s) ∧
    (generateTemplateString "A" "B" "C" "\x7bitemName\x7d - \x7balbumName\x7d" =
      Except.ok "A - B") := by
  refine ⟨?_, ?_, by decide⟩
  · intro hne
    have hform : format ≠ "" := by
      intro h
      apply hne
      rw [invalidTemplateContexts, templateContexts, h]
      rfl
    have hctx : templateContexts format ≠ [] := by
      intro h
      apply hne
      rw [invalidTemplateContexts, h]
      rfl
    constructor
    · unfold generateTemplateString
      rw [if_neg hform, if_neg hctx, if_pos hne]
    · intro c hc
      have h1 : c.toList <:+: (joinComma (invalidTemplateContexts format)).toList :=
        mem_infix_joinComma c _ hc
      obtain ⟨pre, post, hpp⟩ := h1
      exact ⟨("Invalid template contexts: ").toList ++ pre,
        post ++ (". Valid contexts are: " ++ joinComma VALID_CONTEXTS).toList, by
          show ("Invalid template contexts: ").toList ++ pre ++ c.toList ++
            (post ++ _) = _
          have : (templateErrorMsg format).toList =
              ("Invalid template contexts: ").toList ++
              (joinComma (invalidTemplateContexts format)).toList ++
              (". Valid contexts are: " ++ joinComma VALID_CONTEXTS).toList := by
            simp [templateErrorMsg]
          rw [this, ← hpp]
          simp⟩
  · intro hinv
    unfold generateTemplateString
    by_cases hform : format = ""
    · rw [if_pos hform]; exact ⟨"", rfl⟩
    · rw [if_neg hform]
      by_cases hctx : templateContexts format = []
      · rw [if_pos hctx]; exact ⟨format, rfl⟩
      · rw [if_neg hctx, if_neg (by simp [hinv])]
        exact ⟨_, rfl⟩

/-- Witness for C8: the format `"{itemName} - {foo}"` raises an error
whose message names `foo`. -/
theorem generateTemplateString_spec_witness :
    invalidTemplateContexts "\x7bitemName\x7d - \x7bfoo\x7d" ≠ [] ∧
    generateTemplateString "A" "B" "C" "\x7bitemName\x7d - \x7bfoo\x7d" =
      Except.error (templateErrorMsg "\x7bitemName\x7d - \x7bfoo\x7d") ∧
    ("foo".toList <:+:
      (templateErrorMsg "\x7bitemName\x7d - \x7bfoo\x7d").toList) ∧
    generateTemplateString "A" "B" "C" "\x7bitemName\x7d - \x7balbumName\x7d" =
      Except.ok "A - B" := by
  have h := generateTemplateString_spec "A" "B" "C" "\x7bitemName\x7d - \x7bfoo\x7d"
  have hne : invalidTemplateContexts "\x7bitemName\x7d - \x7bfoo\x7d" ≠ [] := by
    decide
  have hfoo : "foo" ∈ invalidTemplateContexts "\x7bitemName\x7d - \x7bfoo\x7d" := by
    decide
  exact ⟨hne, (h.1 hne).1, (h.1 hne).2 "foo" hfoo, h.2.2⟩

/-! ## Source ranker (`findLinks` / `getLinks`, src/util/get-link.js)

The yt-search collaborator is an oracle returning either an error (the
promise rejected), `none` (a result object without `.videos`), or the
video list. `MAX_MINUTES` and the `INPUT_TYPES.SONG` family come from
the constants module (not under `src/`), so they are fields of the
environment. -/

structure Video where
  url : String
  title : String
  description : String
  seconds : Option ℚ
deriving DecidableEq

structure SearchEnv where
  searchO : String → Except String (Option (List Video))
  MAX_MINUTES : ℚ
  songTypes : List String

/-- First filter of `findLinks`: drop a video when any exclusion filter
occurs case-insensitively in its title or description; an empty filter
list keeps everything. -/
def exclKeep (exclusionFilters : List String) (v : Video) : Bool :=
  if exclusionFilters.isEmpty then true
  else
    let titleMatch := exclusionFilters.any fun f =>
      isInfixL (lowerL f.toList) (lowerL v.title.toList)
    let descMatch := exclusionFilters.any fun f =>
      isInfixL (lowerL f.toList) (lowerL v.description.toList)
    !titleMatch && !descMatch

/-- Second filter of `findLinks`: require a present positive duration,
and for song-family types a duration under `MAX_MINUTES * 60` seconds. -/
def durKeep (env : SearchEnv) (isSong : Bool) (v : Video) : Bool :=
  match v.seconds with
  | none => false
  | some s => if s ≤ 0 then false else (!isSong || decide (s < env.MAX_MINUTES * 60))

/-- The final `.map` of `findLinks`: prefix relative URLs with the
YouTube origin. -/
def fixUrl (v : Video) : String :=
  if ("https://youtube.com".toList).isPrefixOf v.url.toList then v.url
  else "https://youtube.com" ++ v.url

/-- `findLinks`: search, filter by exclusion then duration, keep the
first 10, and absolutize URLs. A missing search term, an oracle error
(the `try/catch`), or a result without videos yields `[]`. -/
def findLinks (env : SearchEnv) (searchTerms type : String)
    (exclusionFilters : List String) : List String :=
  if searchTerms = "" then []
  else
    match env.searchO searchTerms with
    | Except.error _ => []
    | Except.ok none => []
    | Except.ok (some videos) =>
      let isSong := env.songTypes.contains type
      ((((videos.filter (exclKeep exclusionFilters)).filter
          (durKeep env isSong)).take 10).map fixUrl)

theorem durKeep_none (env : SearchEnv) (isSong : Bool) (v : Video)
    (h : v.seconds = none) : durKeep env isSong v = false := by
  unfold durKeep; rw [h]

theorem durKeep_some (env : SearchEnv) (isSong : Bool) (s : ℚ) (v : Video)
    (h : v.seconds = some s) :
    durKeep env isSong v =
      if s ≤ 0 then false
      else (!isSong || decide (s < env.MAX_MINUTES * 60)) := by
  unfold durKeep; rw [h]

/-- C5: the ranker returns at most 10 candidate URLs; a search error
yields `[]` rather than an exception; and on a successful search the
output is the image under URL-fixing of a sublist of the provider's
videos in provider order (no re-scoring), of length at most 10, each of
whose members passes every exclusion filter in both title and
description (case-insensitively), has a present positive duration, and
— when the search is song-typed — a duration not exceeding the
configured maximum; zero survivors yield `[]`, not an error. -/
theorem findLinks_spec (env : SearchEnv) (searchTerms type : String)
    (filters : List String) :
    ((findLinks env searchTerms type filters).length ≤ 10) ∧
    (∀ e, env.searchO searchTerms = Except.error e →
      findLinks env searchTerms type filters = []) ∧
    (∀ videos, searchTerms ≠ "" →
      env.searchO searchTerms = Except.ok (some videos) →
      ∃ kept : List Video,
        kept.Sublist videos ∧
        findLinks env searchTerms type filters = kept.map fixUrl ∧
        kept.length ≤ 10 ∧
        ∀ v ∈ kept,
          (∀ f ∈ filters,
            isInfixL (lowerL f.toList) (lowerL v.title.toList) = false ∧
            isInfixL (lowerL f.toList) (lowerL v.description.toList) = false) ∧
          (∃ s, v.seconds = some s ∧ 0 < s ∧
            (type ∈ env.songTypes → s ≤ env.MAX_MINUTES * 60))) := by
  refine ⟨?_, ?_, ?_⟩
  · unfold findLinks
    by_cases h : searchTerms = ""
    · simp [h]
    · rw [if_neg h]
      cases ho : env.searchO searchTerms with
      | error e => simp
      | ok r =>
        cases r with
        | none => simp
        | some videos =>
          simp only [List.length_map, List.length_take]
          exact le_trans (Nat.min_le_left _ _) (le_refl _)
  · intro e he
    unfold findLinks
    by_cases h : searchTerms = ""
    · simp [h]
    · rw [if_neg h, he]
  · intro videos hterms ho
    refine ⟨((videos.filter (exclKeep filters)).filter
      (durKeep env (env.songTypes.contains type))).take 10, ?_, ?_, ?_, ?_⟩
    · exact (List.take_sublist _ _).trans
        ((List.filter_sublist _).trans (List.filter_sublist _))
    · unfold findLinks
      rw [if_neg hterms, ho]
    · simp only [List.length_take]
      exact Nat.min_le_left _ _
    · intro v hv
      have hv2 : v ∈ (videos.filter (exclKeep filters)).filter
          (durKeep env (env.songTypes.contains type)) :=
        List.take_subset _ _ hv
      have hdur : durKeep env (env.songTypes.contains type) v = true :=
        (List.mem_filter.mp hv2).2
      have hexcl : exclKeep filters v = true :=
        (List.mem_filter.mp (List.mem_filter.mp hv2).1).2
      constructor
      · intro f hf
        have hne : ¬ filters.isEmpty := by
          cases filters with
          | nil => cases hf
          | cons a rest => simp
        unfold exclKeep at hexcl
        rw [if_neg hne] at hexcl
        simp only [Bool.and_eq_true, Bool.not_eq_true', List.any_eq_false]
          at hexcl
        exact ⟨by simpa using hexcl.1 f hf, by simpa using hexcl.2 f hf⟩
      · cases hs : v.seconds with
        | none => rw [durKeep_none env _ v hs] at hdur; cases hdur
        | some s =>
          rw [durKeep_some env _ s v hs] at hdur
          by_cases hle : s ≤ 0
          · rw [if_pos hle] at hdur; cases hdur
          · rw [if_neg hle] at hdur
            push_neg at hle
            refine ⟨s, rfl, hle, ?_⟩
            intro hsong
            have hcont : env.songTypes.contains type = true :=
              List.elem_eq_true_of_mem hsong
            rw [hcont] at hdur
            simp only [Bool.not_true, Bool.false_or, decide_eq_true_eq] at hdur
            exact le_of_lt hdur

/-- Modelled from the spec: the external `string-similarity`
collaborator's `compareTwoStrings` — a Dice-coefficient-style bigram
similarity: strip whitespace, return 1 on equal strings, 0 when either
is shorter than 2 characters, else twice the multiset bigram
intersection size over the total bigram count. -/
def bigrams : List Char → List (Char × Char)
  | a :: b :: rest => (a, b) :: bigrams (b :: rest)
  | _ => []

/-- The bigram-map intersection loop of `compareTwoStrings`: walk the
second string's bigrams, consuming one matching occurrence from the
first string's bigrams per hit. -/
def interSize : List (Char × Char) → List (Char × Char) → Nat
  | _, [] => 0
  | as, b :: bs =>
    if as.contains b then 1 + interSize (as.erase b) bs else interSize as bs

/-- Modelled from the spec: `StringSimilarity.compareTwoStrings`. -/
def compareTwoStrings (s1 s2 : String) : ℚ :=
  let first := s1.toList.filter (fun c => !(isWS c))
  let second := s2.toList.filter (fun c => !(isWS c))
  if first = second then 1
  else if first.length < 2 ∨ second.length < 2 then 0
  else (2 * (interSize (bigrams first) (bigrams second) : ℚ)) /
    (((first.length : ℚ) + (second.length : ℚ)) - 2)

/-- Tier 1 of `getLinks`: only with a custom search format; a template
rendering error is caught (`catch` logs and falls through) and behaves
as zero queries and zero results. -/
def tier1Result (env : SearchEnv)
    (itemName albumName artistName searchFormat type : String)
    (filters : List String) : List String × List String :=
  if searchFormat = "" then ([], [])
  else
    match generateTemplateString itemName albumName artistName searchFormat with
    | Except.ok customSearch =>
      ([customSearch], findLinks env customSearch type filters)
    | Except.error _ => ([], [])

/-- Tiers 2 and 3 of `getLinks`: the album-prefixed search runs only
when the item/album similarity is below 0.5 and an album name exists;
the artist-prefixed search runs only when the result is still empty and
an artist name exists. Returns (queries attempted, final links). -/
def tier23 (env : SearchEnv)
    (itemName albumName artistName extraSearch type : String)
    (filters : List String) : List String × List String :=
  let extraSearchTerm := if extraSearch = "" then "" else " " ++ extraSearch
  let similarity := compareTwoStrings itemName albumName
  let t2 : List String × List String :=
    if similarity < 1/2 ∧ albumName ≠ "" then
      ([albumName ++ " - " ++ itemName ++ extraSearchTerm],
        findLinks env (albumName ++ " - " ++ itemName ++ extraSearchTerm)
          type filters)
    else ([], [])
  if t2.2 ≠ [] then t2
  else if artistName ≠ "" then
    (t2.1 ++ [artistName ++ " - " ++ itemName ++ extraSearchTerm],
      findLinks env (artistName ++ " - " ++ itemName ++ extraSearchTerm)
        type filters)
  else (t2.1, [])

/-- `getLinks` with its query trace: the queries handed to `findLinks`
in order, and the returned links. An empty item name returns `[]`; a
non-empty tier-1 result short-circuits. -/
def getLinksT (env : SearchEnv)
    (itemName albumName artistName extraSearch searchFormat type : String)
    (filters : List String) : List String × List String :=
  if itemName = "" then ([], [])
  else
    let t1 := tier1Result env itemName albumName artistName searchFormat
      type filters
    if t1.2 ≠ [] then t1
    else
      (t1.1 ++ (tier23 env itemName albumName artistName extraSearch
          type filters).1,
        (tier23 env itemName albumName artistName extraSearch type filters).2)

/-- `getLinks` as exported: just the links. -/
def getLinks (env : SearchEnv)
    (itemName albumName artistName extraSearch searchFormat type : String)
    (filters : List String) : List String :=
  (getLinksT env itemName albumName artistName extraSearch searchFormat
    type filters).2

/-- C4: the tiered resolver. With a non-empty item name: (1) the custom
template tier runs only when a format is supplied, and a template
rendering failure is caught and treated as that tier producing zero
queries and zero results; (2) a non-empty tier-1 result short-circuits;
(3) an empty tier-1 result falls through to the similarity-gated tiers;
(4) the album-prefixed tier is skipped entirely when the Dice similarity
of item and album names is at least 0.5 or no album name exists, and is
attempted (its query is issued) when the similarity is below 0.5 and an
album name exists, short-circuiting on a non-empty result; the
artist-prefixed tier runs only when the result is still empty and an
artist name exists; and the similarity values for the spec's examples
are `compareTwoStrings "Halo" "Halo" = 1` and
`compareTwoStrings "Halo" "Greatest Hits" = 0`. -/
theorem getLinks_spec (env : SearchEnv)
    (itemName albumName artistName extraSearch searchFormat type : String)
    (filters : List String) (hname : itemName ≠ "") :
    (searchFormat = "" →
      getLinksT env itemName albumName artistName extraSearch searchFormat
          type filters =
        tier23 env itemName albumName artistName extraSearch type filters) ∧
    (∀ e, searchFormat ≠ "" →
      generateTemplateString itemName albumName artistName searchFormat =
        Except.error e →
      getLinksT env itemName albumName artistName extraSearch searchFormat
          type filters =
        tier23 env itemName albumName artistName extraSearch type filters) ∧
    (∀ q, searchFormat ≠ "" →
      generateTemplateString itemName albumName artistName searchFormat =
        Except.ok q →
      findLinks env q type filters ≠ [] →
      getLinksT env itemName albumName artistName extraSearch searchFormat
          type filters = ([q], findLinks env q type filters)) ∧
    (∀ q, searchFormat ≠ "" →
      generateTemplateString itemName albumName artistName searchFormat =
        Except.ok q →
      findLinks env q type filters = [] →
      getLinksT env itemName albumName artistName extraSearch searchFormat
          type filters =
        (q :: (tier23 env itemName albumName artistName extraSearch
            type filters).1,
          (tier23 env itemName albumName artistName extraSearch
            type filters).2)) ∧
    (¬ (compareTwoStrings itemName albumName < 1/2 ∧ albumName ≠ "") →
      tier23 env itemName albumName artistName extraSearch type filters =
        (if artistName ≠ "" then
          ([artistName ++ " - " ++ itemName ++
              (if extraSearch = "" then "" else " " ++ extraSearch)],
            findLinks env (artistName ++ " - " ++ itemName ++
              (if extraSearch = "" then "" else " " ++ extraSearch))
              type filters)
        else ([], []))) ∧
    (compareTwoStrings itemName albumName < 1/2 ∧ albumName ≠ "" →
      (albumName ++ " - " ++ itemName ++
          (if extraSearch = "" then "" else " " ++ extraSearch)) ∈
        (tier23 env itemName albumName artistName extraSearch type
          filters).1 ∧
      (findLinks env (albumName ++ " - " ++ itemName ++
          (if extraSearch = "" then "" else " " ++ extraSearch))
          type filters ≠ [] →
        tier23 env itemName albumName artistName extraSearch type filters =
          ([albumName ++ " - " ++ itemName ++
              (if extraSearch = "" then "" else " " ++ extraSearch)],
            findLinks env (albumName ++ " - " ++ itemName ++
              (if extraSearch = "" then "" else " " ++ extraSearch))
              type filters))) ∧
    (compareTwoStrings "Halo" "Halo" = 1 ∧
      compareTwoStrings "Halo" "Greatest Hits" = 0) := by
  have hGH : compareTwoStrings "Halo" "Greatest Hits" = 0 := by
    have hi : interSize (bigrams ("Halo".toList.filter (fun c => !(isWS c))))
        (bigrams ("Greatest Hits".toList.filter (fun c => !(isWS c)))) = 0 := by
      decide
    unfold compareTwoStrings
    rw [if_neg (by decide), if_neg (by decide), hi]
    norm_num
  refine ⟨?_, ?_, ?_, ?_, ?_, ?_, rfl, hGH⟩
  · intro hsf
    simp only [getLinksT, tier1Result, if_neg hname, if_pos hsf]
    simp
  · intro e hsf hgen
    simp only [getLinksT, tier1Result, if_neg hname, if_neg hsf, hgen]
    simp
  · intro q hsf hgen hfl
    simp only [getLinksT, tier1Result, if_neg hname, if_neg hsf, hgen]
    rw [if_pos (by simpa using hfl)]
  · intro q hsf hgen hfl
    simp only [getLinksT, tier1Result, if_neg hname, if_neg hsf, hgen]
    rw [if_neg (by simp [hfl])]
    simp
  · intro hgate
    simp only [tier23]
    rw [if_neg hgate]
    by_cases hart : artistName ≠ ""
    · rw [if_neg (by simp), if_pos hart, if_pos hart]
      simp
    · rw [if_neg (by simp), if_neg hart, if_neg hart]
  · intro hgate
    simp only [tier23]
    rw [if_pos hgate]
    constructor
    · by_cases hfl : findLinks env (albumName ++ " - " ++ itemName ++
          (if extraSearch = "" then "" else " " ++ extraSearch)) type
          filters = []
      · rw [if_neg (by simpa using hfl)]
        by_cases hart : artistName ≠ ""
        · rw [if_pos hart]
          exact List.mem_append_left _ (List.mem_singleton_self _)
        · rw [if_neg hart]
          exact List.mem_singleton_self _
      · rw [if_pos (by simpa using hfl)]
        exact List.mem_singleton_self _
    · intro hfl
      rw [if_pos (by simpa using hfl)]

/-- The provider outcome used by the C4 and C5 witnesses: the query
`"Halo - Beyonce"` returns four candidates (one good, one with missing
duration, one with zero duration, one over the maximum); every other
query returns a result object without videos. -/
def testVideos : List Video :=
  [⟨"/watch1", "Halo (Official Video)", "the official video", some 240⟩,
   ⟨"/watch2", "Halo cover", "a cover", none⟩,
   ⟨"/watch3", "Halo remix", "a remix", some 0⟩,
   ⟨"/watch4", "Halo compilation", "ten hours", some 36000⟩]

/-- Concrete search environment for the C4 and C5 witnesses. -/
def searchTestEnv : SearchEnv :=
  ⟨fun q => if q = "Halo - Beyonce" then Except.ok (some testVideos)
    else Except.ok none, 20, ["song"]⟩

/-- Witness for C5 at the concrete environment: at most 10 results,
and the surviving sublist obeys all three filters. -/
theorem findLinks_spec_witness :
    (findLinks searchTestEnv "Halo - Beyonce" "song" []).length ≤ 10 ∧
    (∃ kept : List Video,
      kept.Sublist testVideos ∧
      findLinks searchTestEnv "Halo - Beyonce" "song" [] = kept.map fixUrl ∧
      kept.length ≤ 10 ∧
      ∀ v ∈ kept,
        (∀ f ∈ ([] : List String),
          isInfixL (lowerL f.toList) (lowerL v.title.toList) = false ∧
          isInfixL (lowerL f.toList) (lowerL v.description.toList) = false) ∧
        (∃ s, v.seconds = some s ∧ 0 < s ∧
          ("song" ∈ searchTestEnv.songTypes →
            s ≤ searchTestEnv.MAX_MINUTES * 60))) :=
  ⟨(findLinks_spec searchTestEnv "Halo - Beyonce" "song" []).1,
    (findLinks_spec searchTestEnv "Halo - Beyonce" "song" []).2.2 testVideos
      (by decide) rfl⟩

/-- Witness for C4: item `"Halo"` with album `"Halo"` skips the
album-prefixed tier (only the artist query remains), while item
`"Halo"` with album `"Greatest Hits"` attempts it (its query is in the
trace). -/
theorem getLinks_spec_witness :
    (tier23 searchTestEnv "Halo" "Halo" "Beyonce" "" "song" [] =
      (["Beyonce - Halo"],
        findLinks searchTestEnv "Beyonce - Halo" "song" [])) ∧
    ("Greatest Hits - Halo" ∈
      (tier23 searchTestEnv "Halo" "Greatest Hits" "Beyonce" "" "song" []).1) ∧
    (getLinksT searchTestEnv "Halo" "Halo" "Beyonce" "" "" "song" [] =
      tier23 searchTestEnv "Halo" "Halo" "Beyonce" "" "song" []) := by
  have h1 := getLinks_spec searchTestEnv "Halo" "Halo" "Beyonce" "" "" "song"
    [] (by decide)
  have h2 := getLinks_spec searchTestEnv "Halo" "Greatest Hits" "Beyonce" ""
    "" "song" [] (by decide)
  have hAA : compareTwoStrings "Halo" "Halo" = 1 := h1.2.2.2.2.2.2.1
  have hGH : compareTwoStrings "Halo" "Greatest Hits" = 0 := h1.2.2.2.2.2.2.2
  refine ⟨?_, ?_, h1.1 rfl⟩
  · have := h1.2.2.2.2.1 (by rw [hAA]; norm_num)
    simpa using this
  · have := (h2.2.2.2.2.2.1 ⟨by rw [hGH]; norm_num, by decide⟩).1
    simpa using this

/-! ## Dedup cache (`writeId` / `findId`, src cache module)

The filesystem is a map from paths to file contents; `none` covers both
an absent and an unreadable file (`existsSync` false or `readFileSync`
throwing — either way `findId` returns `false`). `cacheFile` is the
configured cache file name (`cliInputs().cacheFile`); a leading `.`
makes it relative to the destination directory (`path.join`). -/

abbrev FS := String → Option String

/-- `getCacheFile`: relative cache names are joined onto the directory. -/
def getCacheFile (cacheFile dir : String) : String :=
  if (".".toList).isPrefixOf cacheFile.toList then dir ++ "/" ++ cacheFile
  else cacheFile

/-- `writeId(dir, id)`: no-op on empty arguments; otherwise append the
line `spotify <id>\n` to the cache file (created empty if absent).
Failures are caught in the source; the model is total and returns the
(possibly unchanged) filesystem. -/
def writeId (cacheFile : String) (fs : FS) (dir id : String) : FS :=
  if dir = "" ∨ id = "" then fs
  else fun p =>
    if p = getCacheFile cacheFile dir then
      some (((fs (getCacheFile cacheFile dir)).getD "") ++
        "spotify " ++ id ++ "\n")
    else fs p

/-- The parse inside `findId`: split on newlines, strip the first
occurrence of `"spotify "` from each line, trim, drop empties. -/
def parseLines (ls : List (List Char)) : List (List Char) :=
  (ls.map (fun line => trimL (replaceFirstL ("spotify ".toList) [] line))).filter
    (fun line => !line.isEmpty)

/-- The ids recorded in a cache file's contents. -/
def parseCacheIds (content : String) : List (List Char) :=
  parseLines (splitNL content.toList)

/-- `findId(id, dir)`: false on empty arguments or a missing/unreadable
cache file; otherwise membership of `id` among the parsed lines. -/
def findId (cacheFile : String) (fs : FS) (id dir : String) : Bool :=
  if id = "" ∨ dir = "" then false
  else
    match fs (getCacheFile cacheFile dir) with
    | none => false
    | some content => (parseCacheIds content).contains id.toList

/-- A filesystem whose files are all empty or newline-terminated — the
shape every file touched only by `writeId` has. -/
def CacheWF (fs : FS) : Prop :=
  ∀ p s, fs p = some s → s = "" ∨ s.toList.getLast? = some '\n'

theorem splitNL_ne_nil : ∀ l : List Char, splitNL l ≠ [] := by
  intro l
  cases l with
  | nil => simp [splitNL]
  | cons c rest =>
    simp only [splitNL]
    cases splitNL rest with
    | nil => simp
    | cons h t =>
      by_cases hc : c = '\n' <;> simp [hc]

theorem splitNL_length_ge_two :
    ∀ l : List Char, l.getLast? = some '\n' → 2 ≤ (splitNL l).length := by
  intro l
  induction l with
  | nil => intro h; cases h
  | cons c rest ih =>
    intro hlast
    cases hrest : rest with
    | nil =>
      subst hrest
      simp only [List.getLast?_singleton, Option.some.injEq] at hlast
      subst hlast
      simp [splitNL]
    | cons d rest2 =>
      rw [hrest] at ih hlast
      rw [List.getLast?_cons_cons] at hlast
      have h2 := ih hlast
      rw [← hrest] at h2 ⊢
      simp only [splitNL]
      cases hs : splitNL rest with
      | nil => exact absurd hs (splitNL_ne_nil rest)
      | cons h t =>
        rw [hs] at h2
        by_cases hc : c = '\n'
        · simp only [if_pos hc, List.length_cons]
          simpa using Nat.le_succ_of_le (Nat.le_of_succ_le h2)
        · simp only [if_neg hc, List.length_cons]
          simpa using h2

theorem splitNL_append (b : List Char) :
    ∀ a : List Char, a.getLast? = some '\n' →
      splitNL (a ++ b) = (splitNL a).dropLast ++ splitNL b := by
  intro a
  induction a with
  | nil => intro h; cases h
  | cons c rest ih =>
    intro hlast
    cases hrest : rest with
    | nil =>
      subst hrest
      simp only [List.getLast?_singleton, Option.some.injEq] at hlast
      subst hlast
      show splitNL ('\n' :: b) = (splitNL ['\n']).dropLast ++ splitNL b
      have hb := splitNL_ne_nil b
      cases hsb : splitNL b with
      | nil => exact absurd hsb hb
      | cons hbh hbt =>
        simp [splitNL, hsb]
    | cons d rest2 =>
      rw [hrest] at ih hlast
      rw [List.getLast?_cons_cons] at hlast
      rw [← hrest] at ih ⊢
      have hlen := splitNL_length_ge_two rest (hrest ▸ hlast)
      have hIH := ih (hrest ▸ hlast)
      cases hs : splitNL rest with
      | nil => exact absurd hs (splitNL_ne_nil rest)
      | cons h t =>
        rw [hs] at hIH hlen
        cases t with
        | nil => simp at hlen
        | cons t0 ts =>
          have hdl : (h :: t0 :: ts).dropLast = h :: (t0 :: ts).dropLast := by
            simp
          rw [hdl] at hIH
          show splitNL (c :: (rest ++ b)) = _
          simp only [splitNL, hs, hIH]
          cases hsab : splitNL (rest ++ b) with
          | nil => exact absurd hsab (splitNL_ne_nil _)
          | cons ah at2 =>
            rw [hsab] at hIH
            cases hIH
            by_cases hc : c = '\n'
            · simp [hc, hdl]
            · simp [hc, hdl]

theorem parseLines_append (a b : List (List Char)) :
    parseLines (a ++ b) = parseLines a ++ parseLines b := by
  simp [parseLines]

theorem parseCacheIds_append (old add : String)
    (h : old = "" ∨ old.toList.getLast? = some '\n') :
    parseCacheIds (old ++ add) = parseCacheIds old ++ parseCacheIds add := by
  rcases h with h | h
  · subst h
    have : ("" ++ add : String) = add := by simp
    rw [this]
    have h0 : parseCacheIds "" = [] := by rfl
    rw [h0, List.nil_append]
  · have htl : (old ++ add).toList = old.toList ++ add.toList := rfl
    unfold parseCacheIds
    rw [htl, splitNL_append add.toList old.toList h]
    rw [parseLines_append]
    congr 1
    have hlast : splitNL old.toList = (splitNL old.toList).dropLast ++ [[]] := by
      have := splitNL_append [] old.toList h
      simpa [splitNL] using this
    calc parseLines (splitNL old.toList).dropLast
        = parseLines (splitNL old.toList).dropLast ++ parseLines [[]] := by
          have h0 : parseLines [[]] = [] := rfl
          rw [h0, List.append_nil]
      _ = parseLines ((splitNL old.toList).dropLast ++ [[]]) := by
          rw [parseLines_append]
      _ = parseLines (splitNL old.toList) := by rw [← hlast]

theorem replaceFirstL_head (pat repl rest : List Char) (hne : pat ≠ []) :
    replaceFirstL pat repl (pat ++ rest) = repl ++ rest := by
  cases pat with
  | nil => exact absurd rfl hne
  | cons p ps =>
    show replaceFirstL (p :: ps) repl (p :: (ps ++ rest)) = repl ++ rest
    rw [replaceFirstL,
      if_pos (show (p :: ps).isPrefixOf (p :: (ps ++ rest)) = true from
        List.isPrefixOf_iff_prefix.mpr
          (by simpa using List.prefix_append (p :: ps) rest))]
    congr 1
    simpa using List.drop_left (p :: ps) rest

theorem dropWhile_isWS_eq_self (l : List Char)
    (h : ∀ c ∈ l, isWS c = false) : l.dropWhile isWS = l := by
  cases l with
  | nil => rfl
  | cons c r =>
    rw [List.dropWhile_cons, h c (List.mem_cons_self c r)]
    simp

theorem trimL_of_noWS (l : List Char) (h : ∀ c ∈ l, isWS c = false) :
    trimL l = l := by
  unfold trimL
  rw [dropWhile_isWS_eq_self l h,
    dropWhile_isWS_eq_self l.reverse (fun c hc => h c (List.mem_reverse.mp hc)),
    List.reverse_reverse]

theorem splitNL_line (xs : List Char) (h : ∀ c ∈ xs, c ≠ '\n') :
    splitNL (xs ++ ['\n']) = [xs, []] := by
  induction xs with
  | nil => rfl
  | cons c rest ih =>
    have hc : c ≠ '\n' := h c (List.mem_cons_self c rest)
    have hr := ih (fun d hd => h d (List.mem_cons_of_mem c hd))
    show splitNL (c :: (rest ++ ['\n'])) = [c :: rest, []]
    simp only [splitNL, hr]
    rw [if_neg hc]

/-- Parsing the single recorded line recovers exactly the id, provided
the id is non-empty and whitespace-free. -/
theorem parseCacheIds_line (id : String) (hid : id ≠ "")
    (hgood : ∀ c ∈ id.toList, isWS c = false) :
    parseCacheIds ("spotify " ++ id ++ "\n") = [id.toList] := by
  have htl : ("spotify " ++ id ++ "\n").toList =
      ("spotify ".toList ++ id.toList) ++ ['\n'] := by
    show ("spotify ".toList ++ id.toList) ++ "\n".toList = _
    rfl
  have hnonl : ∀ c ∈ "spotify ".toList ++ id.toList, c ≠ '\n' := by
    intro c hc
    rcases List.mem_append.mp hc with hc | hc
    · fin_cases hc <;> decide
    · intro heq
      have := hgood c hc
      rw [heq] at this
      exact absurd this (by decide)
  unfold parseCacheIds
  rw [htl, splitNL_line _ hnonl]
  show parseLines ["spotify ".toList ++ id.toList, []] = [id.toList]
  have hrepl : replaceFirstL ("spotify ".toList) [] ("spotify ".toList ++ id.toList) =
      id.toList := by
    rw [replaceFirstL_head _ _ _ (by decide)]
    rfl
  have htrim : trimL id.toList = id.toList := trimL_of_noWS _ hgood
  have hne : (id.toList.isEmpty) = false := by
    cases hc : id.toList with
    | nil =>
      exact absurd (by
        have hmk : id = String.mk id.toList := rfl
        rw [hc] at hmk
        exact hmk) hid
    | cons a b => rfl
  unfold parseLines
  rw [List.map_cons, List.map_cons, List.map_nil, hrepl, htrim]
  have h2 : trimL (replaceFirstL ("spotify ".toList) [] []) = [] := rfl
  rw [h2]
  rw [List.filter_cons, List.filter_cons]
  rw [hne]
  simp

theorem cacheWF_writeId (cacheFile : String) (fs : FS) (dir id : String)
    (hwf : CacheWF fs) : CacheWF (writeId cacheFile fs dir id) := by
  unfold writeId
  by_cases hguard : dir = "" ∨ id = ""
  · rw [if_pos hguard]; exact hwf
  · rw [if_neg hguard]
    intro p s hp
    have hp2 : (if p = getCacheFile cacheFile dir then
        some (((fs (getCacheFile cacheFile dir)).getD "") ++
          "spotify " ++ id ++ "\n")
        else fs p) = some s := hp
    by_cases hfile : p = getCacheFile cacheFile dir
    · rw [if_pos hfile] at hp2
      injection hp2 with hp2
      right
      rw [← hp2]
      show ((((fs (getCacheFile cacheFile dir)).getD "" ++ "spotify " ++ id).toList)
        ++ "\n".toList).getLast? = some '\n'
      exact List.getLast?_concat _
    · rw [if_neg hfile] at hp2
      exact hwf p s hp2

/-- Shared roundtrip core: recording an id makes it findable, for a
well-formed filesystem and a whitespace-free non-empty id. -/
theorem findId_writeId_self (cacheFile : String) (fs : FS) (dir id : String)
    (hwf : CacheWF fs) (hdir : dir ≠ "") (hid : id ≠ "")
    (hgood : ∀ c ∈ id.toList, isWS c = false) :
    findId cacheFile (writeId cacheFile fs dir id) id dir = true := by
  have hguardW : ¬ (dir = "" ∨ id = "") := by
    intro h; rcases h with h | h
    · exact hdir h
    · exact hid h
  have hguardF : ¬ (id = "" ∨ dir = "") := by
    intro h; rcases h with h | h
    · exact hid h
    · exact hdir h
  have hwrite : writeId cacheFile fs dir id (getCacheFile cacheFile dir) =
      some (((fs (getCacheFile cacheFile dir)).getD "") ++
        "spotify " ++ id ++ "\n") := by
    unfold writeId
    rw [if_neg hguardW]
    simp
  unfold findId
  rw [if_neg hguardF, hwrite]
  have hold : (fs (getCacheFile cacheFile dir)).getD "" = "" ∨
      ((fs (getCacheFile cacheFile dir)).getD "").toList.getLast? =
        some '\n' := by
    cases hf : fs (getCacheFile cacheFile dir) with
    | none => left; rfl
    | some s => simpa using hwf _ s hf
  have hassoc : ((fs (getCacheFile cacheFile dir)).getD "") ++
      "spotify " ++ id ++ "\n" =
      ((fs (getCacheFile cacheFile dir)).getD "") ++
        ("spotify " ++ id ++ "\n") := by
    show String.mk _ = String.mk _
    simp
  show (parseCacheIds (((fs (getCacheFile cacheFile dir)).getD "") ++
    "spotify " ++ id ++ "\n")).contains id.toList = true
  rw [hassoc, parseCacheIds_append _ _ hold, parseCacheIds_line id hid hgood]
  exact List.elem_eq_true_of_mem
    (List.mem_append_right _ (List.mem_singleton_self _))

/-- C7 (amended): with every cache file empty or newline-terminated,
for every non-empty directory and non-empty whitespace-free id,
`record` (writeId) followed by `has` (findId) returns true; `has`
returns false — never throwing — when the cache file is absent or
unreadable; and `record` appends exactly the single line
`spotify <id>\n`, creating the file if needed. -/
theorem cache_roundtrip_spec (cacheFile : String) (fs : FS) (dir id : String)
    (hwf : CacheWF fs) (hdir : dir ≠ "") (hid : id ≠ "")
    (hgood : ∀ c ∈ id.toList, isWS c = false) :
    findId cacheFile (writeId cacheFile fs dir id) id dir = true ∧
    (∀ d i : String, fs (getCacheFile cacheFile d) = none →
      findId cacheFile fs i d = false) ∧
    writeId cacheFile fs dir id (getCacheFile cacheFile dir) =
      some (((fs (getCacheFile cacheFile dir)).getD "") ++
        "spotify " ++ id ++ "\n") := by
  have hguardW : ¬ (dir = "" ∨ id = "") := by
    intro h; rcases h with h | h
    · exact hdir h
    · exact hid h
  have hwrite : writeId cacheFile fs dir id (getCacheFile cacheFile dir) =
      some (((fs (getCacheFile cacheFile dir)).getD "") ++
        "spotify " ++ id ++ "\n") := by
    unfold writeId
    rw [if_neg hguardW]
    simp
  refine ⟨findId_writeId_self cacheFile fs dir id hwf hdir hid hgood, ?_,
    hwrite⟩
  · intro d i hnone
    unfold findId
    by_cases hg : i = "" ∨ d = ""
    · rw [if_pos hg]
    · rw [if_neg hg, hnone]

/-- Monotonicity: an id visible in a cache file stays visible after any
further `writeId` (appends never remove lines). -/
theorem findId_mono (cacheFile : String) (fs : FS) (dir' id' id dir : String)
    (hwf : CacheWF fs) (h : findId cacheFile fs id dir = true) :
    findId cacheFile (writeId cacheFile fs dir' id') id dir = true := by
  unfold findId at h ⊢
  by_cases hg : id = "" ∨ dir = ""
  · rw [if_pos hg] at h; cases h
  · rw [if_neg hg] at h ⊢
    unfold writeId
    by_cases hguard : dir' = "" ∨ id' = ""
    · rw [if_pos hguard]; exact h
    · rw [if_neg hguard]
      by_cases hfile : getCacheFile cacheFile dir = getCacheFile cacheFile dir'
      · rw [if_pos hfile]
        cases hf : fs (getCacheFile cacheFile dir) with
        | none => rw [hf] at h; cases h
        | some content =>
          rw [hf] at h
          rw [← hfile, hf]
          have hold : content = "" ∨
              content.toList.getLast? = some '\n' := hwf _ content hf
          have hassoc : (Option.getD (some content) "") ++
              "spotify " ++ id' ++ "\n" =
              content ++ ("spotify " ++ id' ++ "\n") := by
            show String.mk _ = String.mk _
            simp
          show (parseCacheIds ((Option.getD (some content) "") ++
            "spotify " ++ id' ++ "\n")).contains id.toList = true
          rw [hassoc, parseCacheIds_append _ _ hold]
          have hmem := List.mem_of_elem_eq_true h
          exact List.elem_eq_true_of_mem (List.mem_append_left _ hmem)
      · rw [if_neg hfile]
        exact h

/-- C7 counterexample to the claim as stated: the non-empty id `" x"`
(leading whitespace) is recorded as the line `"spotify  x\n"`, but
`findId` trims each parsed line, so `has` after `record` returns false
for it. -/
theorem cache_roundtrip_counterexample :
    (" x" : String) ≠ "" ∧
    findId ".cache" (writeId ".cache" (fun _ => none) "d" " x") " x" "d" =
      false := by
  refine ⟨by decide, ?_⟩
  decide

/-- Witness for C7 at the spec's own example id `"abc"` on an empty
filesystem. -/
theorem cache_roundtrip_spec_witness :
    findId ".cache" (writeId ".cache" (fun _ => none) "d" "abc") "abc" "d" =
      true ∧
    findId ".cache" (fun _ => none) "abc" "d" = false ∧
    writeId ".cache" (fun _ => none) "d" "abc"
        (getCacheFile ".cache" "d") =
      some ("" ++ "spotify " ++ "abc" ++ "\n") := by
  have h := cache_roundtrip_spec ".cache" (fun _ => none) "d" "abc"
    (fun p s hp => nomatch hp) (by decide) (by decide) (by decide)
  exact ⟨h.1, h.2.1 "d" "abc" rfl, h.2.2⟩

/-! ## Batch orchestrator (`downloadList`, src runner module 78–149)

One `Item` carries the fields the loop reads and the flags it writes.
`OrchEnv` holds the fixed CLI configuration and the outcome oracles of
the collaborators: `dirOf` abstracts the deterministic destination
computation `path.dirname(itemOutputPath(name, album, artist))` (a pure
function of the item under a fixed configuration), `mkdirOk` the
`fs.mkdirSync` outcome, `lyricsOf` the subtitle provider, `linksOf` the
`getLinks` outcome, and `downloadOk` the `downloader` outcome. `Calls`
counts the collaborator invocations the loop makes per kind. -/

structure Item where
  id : String
  name : String
  album_name : String
  artists : List String
  URL : Option String := none
  lyrics : Option String := none
  cached : Bool := false
  failed : Option Bool := none
deriving DecidableEq

structure OrchEnv where
  cacheFile : String
  dirOf : Item → String
  mkdirOk : String → Bool
  downloadLyrics : Bool
  lyricsOf : Item → String
  linksOf : Item → List String
  downloadOk : Item → List String → Bool

structure Calls where
  lyrics : Nat
  resolve : Nat
  download : Nat
  tag : Nat
deriving DecidableEq

def Calls.add (a b : Calls) : Calls :=
  ⟨a.lyrics + b.lyrics, a.resolve + b.resolve, a.download + b.download,
    a.tag + b.tag⟩

/-- One iteration of the `for (const nextItem of list.items)` loop:
cache hit marks `cached` and skips everything; a directory-creation
failure marks `failed` and skips the item; otherwise lyrics are
optionally fetched, sources resolved (a direct `URL` bypasses ranking),
no candidates marks `failed`; a successful download tags, records the
id, and sets `failed = false`, else `failed = true`. -/
def processItem (env : OrchEnv) (fs : FS) (it : Item) : Item × FS × Calls :=
  if findId env.cacheFile fs it.id (env.dirOf it) then
    ({it with cached := true}, fs, ⟨0, 0, 0, 0⟩)
  else if !(env.mkdirOk (env.dirOf it)) then
    ({it with failed := some true}, fs, ⟨0, 0, 0, 0⟩)
  else
    let lyCount : Nat := if env.downloadLyrics then 1 else 0
    let it1 := if env.downloadLyrics then
      {it with lyrics := some (env.lyricsOf it)} else it
    let ytLinks := match it.URL with
      | some u => [u]
      | none => env.linksOf it
    let rc : Nat := match it.URL with
      | some _ => 0
      | none => 1
    if ytLinks = [] then
      ({it1 with failed := some true}, fs, ⟨lyCount, rc, 0, 0⟩)
    else if env.downloadOk it1 ytLinks then
      ({it1 with failed := some false},
        writeId env.cacheFile fs (env.dirOf it) it.id, ⟨lyCount, rc, 1, 1⟩)
    else
      ({it1 with failed := some true}, fs, ⟨lyCount, rc, 1, 0⟩)

/-- `downloadList`: the sequential loop over the items, threading the
filesystem and accumulating collaborator calls. -/
def downloadList (env : OrchEnv) (fs : FS) : List Item → List Item × FS × Calls
  | [] => ([], fs, ⟨0, 0, 0, 0⟩)
  | it :: rest =>
    let r := processItem env fs it
    let rr := downloadList env r.2.1 rest
    (r.1 :: rr.1, rr.2.1, Calls.add r.2.2 rr.2.2)

theorem processItem_cached (env : OrchEnv) (fs : FS) (it : Item)
    (h : findId env.cacheFile fs it.id (env.dirOf it) = true) :
    processItem env fs it = ({it with cached := true}, fs, ⟨0, 0, 0, 0⟩) := by
  unfold processItem
  rw [h]
  rfl

theorem processItem_mkdir_fail (env : OrchEnv) (fs : FS) (it : Item)
    (h1 : findId env.cacheFile fs it.id (env.dirOf it) = false)
    (h2 : env.mkdirOk (env.dirOf it) = false) :
    processItem env fs it = ({it with failed := some true}, fs, ⟨0, 0, 0, 0⟩) := by
  unfold processItem
  rw [h1, h2]
  rfl

/-- Every loop iteration either takes the cache-hit branch, fails
leaving the filesystem unchanged, or succeeds having recorded the id. -/
theorem processItem_outcome (env : OrchEnv) (fs : FS) (it : Item) :
    (findId env.cacheFile fs it.id (env.dirOf it) = true ∧
      (processItem env fs it).2.1 = fs) ∨
    ((processItem env fs it).1.failed = some true ∧
      (processItem env fs it).2.1 = fs) ∨
    ((processItem env fs it).1.failed = some false ∧
      (processItem env fs it).2.1 =
        writeId env.cacheFile fs (env.dirOf it) it.id) := by
  by_cases hc : findId env.cacheFile fs it.id (env.dirOf it)
  · exact Or.inl ⟨hc, by rw [processItem_cached env fs it hc]⟩
  · rw [Bool.not_eq_true] at hc
    by_cases hm : env.mkdirOk (env.dirOf it)
    · cases hurl : it.URL with
      | some u =>
        by_cases hd : env.downloadOk
            (if env.downloadLyrics then
              {it with lyrics := some (env.lyricsOf it)} else it) [u]
        · simp only [hurl] at hd
          exact Or.inr (Or.inr
            ⟨by simp [processItem, hc, hm, hurl, hd],
             by simp [processItem, hc, hm, hurl, hd]⟩)
        · simp only [hurl] at hd
          exact Or.inr (Or.inl
            ⟨by simp [processItem, hc, hm, hurl, hd],
             by simp [processItem, hc, hm, hurl, hd]⟩)
      | none =>
        by_cases hl : env.linksOf it = []
        · exact Or.inr (Or.inl
            ⟨by simp [processItem, hc, hm, hurl, hl],
             by simp [processItem, hc, hm, hurl, hl]⟩)
        · by_cases hd : env.downloadOk
              (if env.downloadLyrics then
                {it with lyrics := some (env.lyricsOf it)} else it)
              (env.linksOf it)
          · simp only [hurl] at hd
            exact Or.inr (Or.inr
              ⟨by simp [processItem, hc, hm, hurl, hl, hd],
               by simp [processItem, hc, hm, hurl, hl, hd]⟩)
          · simp only [hurl] at hd
            exact Or.inr (Or.inl
              ⟨by simp [processItem, hc, hm, hurl, hl, hd],
               by simp [processItem, hc, hm, hurl, hl, hd]⟩)
    · exact Or.inr (Or.inl
        ⟨by simp [processItem_mkdir_fail env fs it hc
            (Bool.not_eq_true _ ▸ (by simpa using hm))],
         by simp [processItem_mkdir_fail env fs it hc
            (Bool.not_eq_true _ ▸ (by simpa using hm))]⟩)

theorem cacheWF_processItem (env : OrchEnv) (fs : FS) (it : Item)
    (hwf : CacheWF fs) : CacheWF ((processItem env fs it).2.1) := by
  rcases processItem_outcome env fs it with ⟨_, h⟩ | ⟨_, h⟩ | ⟨_, h⟩
  · rw [h]; exact hwf
  · rw [h]; exact hwf
  · rw [h]; exact cacheWF_writeId _ _ _ _ hwf

theorem cacheWF_downloadList (env : OrchEnv) :
    ∀ (items : List Item) (fs : FS), CacheWF fs →
      CacheWF ((downloadList env fs items).2.1) := by
  intro items
  induction items with
  | nil => intro fs hwf; exact hwf
  | cons it rest ih =>
    intro fs hwf
    exact ih _ (cacheWF_processItem env fs it hwf)

theorem findId_mono_processItem (env : OrchEnv) (fs : FS) (it : Item)
    (x d : String) (hwf : CacheWF fs)
    (h : findId env.cacheFile fs x d = true) :
    findId env.cacheFile ((processItem env fs it).2.1) x d = true := by
  rcases processItem_outcome env fs it with ⟨_, hf⟩ | ⟨_, hf⟩ | ⟨_, hf⟩
  · rw [hf]; exact h
  · rw [hf]; exact h
  · rw [hf]; exact findId_mono _ _ _ _ _ _ hwf h

theorem findId_mono_downloadList (env : OrchEnv) :
    ∀ (items : List Item) (fs : FS) (x d : String), CacheWF fs →
      findId env.cacheFile fs x d = true →
      findId env.cacheFile ((downloadList env fs items).2.1) x d = true := by
  intro items
  induction items with
  | nil => intro fs x d _ h; exact h
  | cons it rest ih =>
    intro fs x d hwf h
    exact ih _ x d (cacheWF_processItem env fs it hwf)
      (findId_mono_processItem env fs it x d hwf h)

/-- After a run in which no item failed, every item's id is present in
the cache for its destination directory. -/
theorem downloadList_records (env : OrchEnv) :
    ∀ (items : List Item) (fs : FS), CacheWF fs →
      (∀ it ∈ items, it.id ≠ "" ∧ ∀ c ∈ it.id.toList, isWS c = false) →
      (∀ it ∈ items, env.dirOf it ≠ "") →
      (∀ r ∈ (downloadList env fs items).1, r.failed ≠ some true) →
      ∀ it ∈ items,
        findId env.cacheFile ((downloadList env fs items).2.1) it.id
          (env.dirOf it) = true := by
  intro items
  induction items with
  | nil => intro fs _ _ _ _ it hit; cases hit
  | cons it0 rest ih =>
    intro fs hwf hids hdirs hok it hit
    have hok0 : (processItem env fs it0).1.failed ≠ some true := by
      have : (processItem env fs it0).1 ∈ (downloadList env fs (it0 :: rest)).1 := by
        show (processItem env fs it0).1 ∈
          (processItem env fs it0).1 :: (downloadList env _ rest).1
        exact List.mem_cons_self _ _
      exact hok _ this
    have hwf' : CacheWF ((processItem env fs it0).2.1) :=
      cacheWF_processItem env fs it0 hwf
    have hrest : ∀ r ∈ (downloadList env ((processItem env fs it0).2.1) rest).1,
        r.failed ≠ some true := by
      intro r hr
      refine hok r ?_
      show r ∈ (processItem env fs it0).1 ::
        (downloadList env ((processItem env fs it0).2.1) rest).1
      exact List.mem_cons_of_mem _ hr
    rcases List.mem_cons.mp hit with rfl | hit
    · -- the head item: recorded by its own iteration, then preserved
      have hrec : findId env.cacheFile ((processItem env fs it).2.1) it.id
          (env.dirOf it) = true := by
        rcases processItem_outcome env fs it with ⟨hfound, hf⟩ | ⟨hfail, _⟩ |
          ⟨_, hf⟩
        · rw [hf]; exact hfound
        · exact absurd hfail hok0
        · rw [hf]
          exact findId_writeId_self env.cacheFile fs (env.dirOf it) it.id hwf
            (hdirs it (List.mem_cons_self _ _))
            (hids it (List.mem_cons_self _ _)).1
            (hids it (List.mem_cons_self _ _)).2
      show findId env.cacheFile
        ((downloadList env ((processItem env fs it).2.1) rest).2.1) it.id
        (env.dirOf it) = true
      exact findId_mono_downloadList env rest _ _ _ hwf' hrec
    · -- a later item: the induction hypothesis on the rest
      show findId env.cacheFile
        ((downloadList env ((processItem env fs it0).2.1) rest).2.1) it.id
        (env.dirOf it) = true
      exact ih _ hwf'
        (fun i hi => hids i (List.mem_cons_of_mem _ hi))
        (fun i hi => hdirs i (List.mem_cons_of_mem _ hi))
        hrest it hit

/-- A run over a list whose every id is already cached marks everything
`cached`, touches nothing, and calls no collaborator. -/
theorem downloadList_all_cached (env : OrchEnv) :
    ∀ (items : List Item) (fs : FS),
      (∀ it ∈ items, findId env.cacheFile fs it.id (env.dirOf it) = true) →
      downloadList env fs items =
        (items.map (fun it => {it with cached := true}), fs, ⟨0, 0, 0, 0⟩) := by
  intro items
  induction items with
  | nil => intro fs _; rfl
  | cons it rest ih =>
    intro fs hall
    show (let r := processItem env fs it
      let rr := downloadList env r.2.1 rest
      (r.1 :: rr.1, rr.2.1, Calls.add r.2.2 rr.2.2)) = _
    rw [processItem_cached env fs it (hall it (List.mem_cons_self _ _))]
    show ((({it with cached := true}) ::
        (downloadList env fs rest).1),
      (downloadList env fs rest).2.1,
      Calls.add ⟨0, 0, 0, 0⟩ (downloadList env fs rest).2.2) = _
    rw [ih fs (fun i hi => hall i (List.mem_cons_of_mem _ hi))]
    rfl

/-- C6: (1) a dedup-cache hit marks the item `cached = true` and skips
all further processing — no lyrics fetch, no source resolution, no
acquisition, no tagging, filesystem untouched; (2) a destination
directory creation failure marks the item `failed = true` and likewise
performs no further processing, and the loop continues with the next
item (`downloadList` is total over the whole list); (3) with item ids
non-empty and whitespace-free, destination directories non-empty, and
an intact (newline-terminated) cache, a first run in which no item
failed makes a second run over the same list mark every item
`cached = true` with zero acquisition calls (indeed zero collaborator
calls of any kind) and no filesystem change. -/
theorem downloadList_spec (env : OrchEnv) :
    (∀ (fs : FS) (it : Item),
      findId env.cacheFile fs it.id (env.dirOf it) = true →
      processItem env fs it = ({it with cached := true}, fs, ⟨0, 0, 0, 0⟩)) ∧
    (∀ (fs : FS) (it : Item),
      findId env.cacheFile fs it.id (env.dirOf it) = false →
      env.mkdirOk (env.dirOf it) = false →
      processItem env fs it =
        ({it with failed := some true}, fs, ⟨0, 0, 0, 0⟩)) ∧
    (∀ (fs : FS) (items : List Item),
      CacheWF fs →
      (∀ it ∈ items, it.id ≠ "" ∧ ∀ c ∈ it.id.toList, isWS c = false) →
      (∀ it ∈ items, env.dirOf it ≠ "") →
      (∀ r ∈ (downloadList env fs items).1, r.failed ≠ some true) →
      downloadList env ((downloadList env fs items).2.1) items =
        (items.map (fun it => {it with cached := true}),
          (downloadList env fs items).2.1, ⟨0, 0, 0, 0⟩)) := by
  refine ⟨processItem_cached env, processItem_mkdir_fail env, ?_⟩
  intro fs items hwf hids hdirs hok
  exact downloadList_all_cached env items _
    (downloadList_records env items fs hwf hids hdirs hok)

/-- Concrete orchestrator environment for the C6 witness: one fixed
destination directory, directories always creatable, no lyrics, one
candidate link, downloads always succeed. -/
def orchTestEnv : OrchEnv :=
  ⟨".cache", fun _ => "out", fun _ => true, false, fun _ => "",
    fun _ => ["u1"], fun _ _ => true⟩

/-- The single item the C6 witness processes. -/
def orchTestItem : Item :=
  ⟨"id1", "song1", "album1", ["artist1"], none, none, false, none⟩

/-- Witness for C6: after a fully successful first run from an empty
filesystem, the second run over the same list returns every item
`cached = true` with zero collaborator calls; a cache hit skips
processing; a directory-creation failure marks `failed`. -/
theorem downloadList_spec_witness :
    ((∀ r ∈ (downloadList orchTestEnv (fun _ => none) [orchTestItem]).1,
        r.failed ≠ some true) ∧
      downloadList orchTestEnv
          ((downloadList orchTestEnv (fun _ => none) [orchTestItem]).2.1)
          [orchTestItem] =
        ([orchTestItem].map (fun it => {it with cached := true}),
          (downloadList orchTestEnv (fun _ => none) [orchTestItem]).2.1,
          ⟨0, 0, 0, 0⟩)) ∧
    (findId ".cache" (writeId ".cache" (fun _ => none) "out" "id1")
        "id1" "out" = true ∧
      processItem orchTestEnv (writeId ".cache" (fun _ => none) "out" "id1")
          orchTestItem =
        ({orchTestItem with cached := true},
          writeId ".cache" (fun _ => none) "out" "id1", ⟨0, 0, 0, 0⟩)) ∧
    processItem ⟨".cache", fun _ => "out", fun _ => false, false, fun _ => "",
        fun _ => ["u1"], fun _ _ => true⟩ (fun _ => none) orchTestItem =
      ({orchTestItem with failed := some true}, fun _ => none,
        ⟨0, 0, 0, 0⟩) := by
  have h := downloadList_spec orchTestEnv
  have hfail := downloadList_spec
    (⟨".cache", fun _ => "out", fun _ => false, false, fun _ => "",
      fun _ => ["u1"], fun _ _ => true⟩ : OrchEnv)
  refine ⟨⟨by decide, ?_⟩, ⟨by decide, ?_⟩, ?_⟩
  · exact h.2.2 (fun _ => none) [orchTestItem]
      (fun p s hp => nomatch hp) (by decide) (by decide) (by decide)
  · exact h.1 (writeId ".cache" (fun _ => none) "out" "id1") orchTestItem
      (by decide)
  · exact hfail.2.1 (fun _ => none) orchTestItem (by decide) rfl

/-! ## Metadata tagger (`mergeMetadata`, src/lib/metadata.js 50–129)

The oracles give the outcomes of the cover download+convert attempts
(`downloadAndSaveCover`, numbered 1 and 2), the generic-image copy, the
`NodeID3.update` tag write, and the temporary cover deletion. The model
tracks the actions performed in order and the existence of the
temporary cover file; the artifact itself is never deleted on any
path. -/

structure TagEnv where
  coverAttempt : Nat → Bool
  copyGenericOk : Bool
  tagWriteOk : Bool
  unlinkOk : Bool

inductive TagEvent
  | coverAttempt (n : Nat) (ok : Bool)
  | copyGeneric (ok : Bool)
  | writeTags (ok : Bool)
  | deleteCover (ok : Bool)
deriving DecidableEq

structure TagResult where
  events : List TagEvent
  coverProduced : Bool
  coverFileExists : Bool
  artifactPresent : Bool
deriving DecidableEq

/-- `mergeMetadata`: with a cover URL, try the download twice (`while
(downloadAttempts < maxAttempts)` with a `break` on success); if the
cover file still does not exist, copy the bundled generic image (its
failure is caught); write the tags (`try/catch` around
`NodeID3.update`); finally delete the cover file if it exists,
whatever the tag write did. Total: every failure is caught. -/
def mergeMetadata (env : TagEnv) (hasCoverUrl coverExists0 : Bool) :
    TagResult :=
  let dl : List TagEvent × Bool :=
    if hasCoverUrl then
      if env.coverAttempt 1 then ([TagEvent.coverAttempt 1 true], true)
      else if env.coverAttempt 2 then
        ([TagEvent.coverAttempt 1 false, TagEvent.coverAttempt 2 true], true)
      else
        ([TagEvent.coverAttempt 1 false, TagEvent.coverAttempt 2 false],
          coverExists0)
    else ([], coverExists0)
  let cp : List TagEvent × Bool :=
    if dl.2 then ([], true)
    else ([TagEvent.copyGeneric env.copyGenericOk], env.copyGenericOk)
  let del : List TagEvent × Bool :=
    if cp.2 then ([TagEvent.deleteCover env.unlinkOk], !env.unlinkOk)
    else ([], false)
  ⟨dl.1 ++ cp.1 ++ [TagEvent.writeTags env.tagWriteOk] ++ del.1,
    cp.2, del.2, true⟩

/-- C9: the tagger never throws and never removes the artifact (the
result always reports the artifact present and always contains the tag
write, whatever its outcome); the cover is fetched with one retry — a
first failure followed by a second success embeds the downloaded cover
with no generic copy; after two failures with no leftover cover file
the generic copy is attempted, and if that copy also fails tagging
proceeds without embedded art; the temporary cover file is deleted
exactly when one was produced, independently of the tag write outcome,
and a successful deletion leaves no cover file behind. -/
theorem mergeMetadata_spec (env : TagEnv) (hasCoverUrl coverExists0 : Bool) :
    ((mergeMetadata env hasCoverUrl coverExists0).artifactPresent = true) ∧
    (TagEvent.writeTags env.tagWriteOk ∈
      (mergeMetadata env hasCoverUrl coverExists0).events) ∧
    (hasCoverUrl = true → env.coverAttempt 1 = false →
      env.coverAttempt 2 = true →
      (mergeMetadata env hasCoverUrl coverExists0).events =
        [TagEvent.coverAttempt 1 false, TagEvent.coverAttempt 2 true,
          TagEvent.writeTags env.tagWriteOk,
          TagEvent.deleteCover env.unlinkOk] ∧
      (mergeMetadata env hasCoverUrl coverExists0).coverProduced = true) ∧
    (hasCoverUrl = true → env.coverAttempt 1 = false →
      env.coverAttempt 2 = false → coverExists0 = false →
      (TagEvent.copyGeneric env.copyGenericOk ∈
        (mergeMetadata env hasCoverUrl coverExists0).events) ∧
      (env.copyGenericOk = false →
        (mergeMetadata env hasCoverUrl coverExists0).coverProduced = false)) ∧
    (∀ b : Bool,
      ((∃ b2, TagEvent.deleteCover b2 ∈
          (mergeMetadata {env with tagWriteOk := b} hasCoverUrl
            coverExists0).events) ↔
        (mergeMetadata env hasCoverUrl coverExists0).coverProduced = true)) ∧
    (env.unlinkOk = true →
      (mergeMetadata env hasCoverUrl coverExists0).coverFileExists = false) := by
  have hprod : ∀ b : Bool,
      (mergeMetadata {env with tagWriteOk := b} hasCoverUrl
        coverExists0).coverProduced =
      (mergeMetadata env hasCoverUrl coverExists0).coverProduced := by
    intro b
    by_cases h1 : hasCoverUrl = true <;>
      by_cases h2 : env.coverAttempt 1 = true <;>
        by_cases h3 : env.coverAttempt 2 = true <;>
          simp [mergeMetadata, h1, h2, h3]
  refine ⟨rfl, ?_, ?_, ?_, ?_, ?_⟩
  · by_cases h1 : hasCoverUrl = true <;>
      by_cases h2 : env.coverAttempt 1 = true <;>
        by_cases h3 : env.coverAttempt 2 = true <;>
          by_cases h4 : coverExists0 = true <;>
            by_cases h5 : env.copyGenericOk = true <;>
              simp [mergeMetadata, h1, h2, h3, h4, h5]
  · intro h1 h2 h3
    constructor
    · simp [mergeMetadata, h1, h2, h3]
    · simp [mergeMetadata, h1, h2, h3]
  · intro h1 h2 h3 h4
    constructor
    · simp [mergeMetadata, h1, h2, h3, h4]
    · intro h5
      simp [mergeMetadata, h1, h2, h3, h4, h5]
  · intro b
    by_cases hp : (mergeMetadata env hasCoverUrl coverExists0).coverProduced = true
    · simp only [hp, iff_true]
      refine ⟨env.unlinkOk, ?_⟩
      have hp2 : (mergeMetadata {env with tagWriteOk := b} hasCoverUrl
          coverExists0).coverProduced = true := by rw [hprod b]; exact hp
      by_cases h1 : hasCoverUrl = true <;>
        by_cases h2 : env.coverAttempt 1 = true <;>
          by_cases h3 : env.coverAttempt 2 = true <;>
            by_cases h4 : coverExists0 = true <;>
              by_cases h5 : env.copyGenericOk = true <;>
                simp_all [mergeMetadata]
    · rw [Bool.not_eq_true] at hp
      rw [hp]
      simp only [Bool.false_eq_true, iff_false]
      rintro ⟨b2, hb2⟩
      have hp2 : (mergeMetadata {env with tagWriteOk := b} hasCoverUrl
          coverExists0).coverProduced = true := by
        by_cases h1 : hasCoverUrl = true <;>
          by_cases h2 : env.coverAttempt 1 = true <;>
            by_cases h3 : env.coverAttempt 2 = true <;>
              by_cases h4 : coverExists0 = true <;>
                by_cases h5 : env.copyGenericOk = true <;>
                  simp_all [mergeMetadata]
      rw [hprod b, hp] at hp2
      exact absurd hp2 (by decide)
  · intro hu
    by_cases h1 : hasCoverUrl = true <;>
      by_cases h2 : env.coverAttempt 1 = true <;>
        by_cases h3 : env.coverAttempt 2 = true <;>
          by_cases h4 : coverExists0 = true <;>
            by_cases h5 : env.copyGenericOk = true <;>
              simp_all [mergeMetadata]

/-- Witness for C9: a first cover failure with a second success embeds
the downloaded cover and cleans up even though the tag write fails; a
double failure with a failing generic copy proceeds without art. -/
theorem mergeMetadata_spec_witness :
    ((mergeMetadata ⟨fun n => decide (n = 2), true, false, true⟩ true
        false).events =
      [TagEvent.coverAttempt 1 false, TagEvent.coverAttempt 2 true,
        TagEvent.writeTags false, TagEvent.deleteCover true] ∧
      (mergeMetadata ⟨fun n => decide (n = 2), true, false, true⟩ true
        false).coverProduced = true) ∧
    (mergeMetadata ⟨fun n => decide (n = 2), true, false, true⟩ true
        false).coverFileExists = false ∧
    (TagEvent.copyGeneric false ∈
      (mergeMetadata ⟨fun _ => false, false, true, true⟩ true false).events) ∧
    (mergeMetadata ⟨fun _ => false, false, true, true⟩ true
      false).coverProduced = false := by
  have h1 := mergeMetadata_spec ⟨fun n => decide (n = 2), true, false, true⟩
    true false
  have h2 := mergeMetadata_spec ⟨fun _ => false, false, true, true⟩ true false
  exact ⟨h1.2.2.1 rfl (by decide) (by decide),
    h1.2.2.2.2.2 rfl,
    (h2.2.2.2.1 rfl rfl rfl rfl).1,
    (h2.2.2.2.1 rfl rfl rfl rfl).2 rfl⟩

/-! ## End-of-run report (`generateReport`, src runner module 155–186)

Per list, `failedItems` are the items whose `failed` flag is truthy
(only `failed = true`; `false` and unset are falsy), and
`successCount = totalItems - failedItems.length`. -/

def reportCounts (items : List Item) : Nat × Nat :=
  (items.length -
    (items.filter (fun it => decide (it.failed = some true))).length,
    items.length)

theorem length_filter_add_compl (p : Item → Bool) (l : List Item) :
    (l.filter p).length + (l.filter (fun a => !(p a))).length = l.length := by
  induction l with
  | nil => rfl
  | cons a rest ih =>
    by_cases h : p a = true
    · simp [List.filter_cons, h]
      omega
    · simp [List.filter_cons, h]
      omega

/-- C10: the reported success count of a list equals the number of its
items whose `failed` flag is not set to `true` — so dedup-cached items
(`failed` never set) and items carrying neither flag count as
successes — and a list in which no item has `failed = true` (e.g. a
fully cached rerun) reports every item successful; the reported total
is the list length. -/
theorem generateReport_spec (items : List Item) :
    ((reportCounts items).1 =
      (items.filter (fun it => !(decide (it.failed = some true)))).length) ∧
    ((∀ it ∈ items, it.failed ≠ some true) →
      (reportCounts items).1 = items.length) ∧
    ((reportCounts items).2 = items.length) := by
  have hsum := length_filter_add_compl
    (fun it => decide (it.failed = some true)) items
  refine ⟨?_, ?_, rfl⟩
  · show items.length - _ = _
    omega
  · intro hall
    have hnil : items.filter (fun it => decide (it.failed = some true)) = [] := by
      rw [List.filter_eq_nil]
      intro a ha
      simpa using hall a ha
    show items.length - _ = _
    rw [hnil]
    rfl

/-- Witness for C10: a list of one cached item, one failed item, one
successful item and one untouched item reports 3 of 4 successful; a
fully cached list reports all its items successful. -/
theorem generateReport_spec_witness :
    (reportCounts
      [{orchTestItem with cached := true},
        {orchTestItem with failed := some true},
        {orchTestItem with failed := some false},
        orchTestItem]).1 = 3 ∧
    (∀ it ∈ [{orchTestItem with cached := true}], it.failed ≠ some true) ∧
    (reportCounts [{orchTestItem with cached := true}]).1 =
      ([{orchTestItem with cached := true}] : List Item).length := by
  refine ⟨by decide, by decide, ?_⟩
  exact (generateReport_spec [{orchTestItem with cached := true}]).2.1
    (by decide)
